import Mathlib

/-!
# timerlib: a verification development

A shallow embedding of `timerlib.c` (the timer queue, `TimerAdd`, `TimerRemove`,
`TimerDequeue`, `TimerStart` and the dispatcher loop `cronometer`) together with
theorems about it.

Modelling conventions
* `long`, `time_t` and `suseconds_t` values are mathematical integers (`Int`); the
  arithmetic of the source is reproduced operation by operation, signed overflow
  (undefined in C) is not modelled.
* `uint32_t cur_id` is a `Nat` reduced modulo `2^32` at every increment; the
  conversion to `int` is the two's complement one (`toInt32`).
* A pointer to a `Timer` is an `Option Nat`: `none` is `NULL`, `some a` is the
  address `a`.  The heap maps addresses to `Timer` records; `malloc` hands out
  the address `brk` (never used before), so addresses number the timers in the
  order of their creation; `free` erases the record.
* Function pointers and the opaque `void*` argument are `Option Nat` too.
* Every function that dereferences a pointer returns an `Option`: `none` stands
  for a dereference of `NULL` or of a freed record, or for a loop that does not
  terminate within its fuel.
* Every API call runs under the queue mutex, so one call is one atomic step.
-/

namespace TimerLib

/-! ## Time values -/

/-- The `struct timeval` of the C library. -/
structure Timeval where
  tv_sec : Int
  tv_usec : Int
deriving DecidableEq, Repr

def MICRO_PER_SEC : Int := 1000000

def MAX_USEC : Int := 999999

def ALMOST_NOW : Int := 1000

/-- The macro `TV_LESS_THAN(t1, t2)`. -/
def TV_LESS_THAN (t1 t2 : Timeval) : Bool :=
  decide (t1.tv_sec < t2.tv_sec) ||
    (decide (t1.tv_sec = t2.tv_sec) && decide (t1.tv_usec < t2.tv_usec))

/-- The macro `TV_MINUS(t1, t2, tgt)`: the value assigned to `tgt`. -/
def TV_MINUS (t1 t2 : Timeval) : Timeval :=
  if t1.tv_usec ≥ t2.tv_usec then
    { tv_sec := t1.tv_sec - t2.tv_sec, tv_usec := t1.tv_usec - t2.tv_usec }
  else
    { tv_sec := t1.tv_sec - t2.tv_sec - 1, tv_usec := t1.tv_usec + (MAX_USEC - t2.tv_usec) }

/-! ## Records and state -/

/-- The `struct timer` of the source. -/
structure Timer where
  timeout : Timeval
  handler : Option Nat
  handler_arg : Option Nat
  timerId : Int
  in_use : Int
  cancelled : Int
  next : Option Nat
  prev : Option Nat
deriving DecidableEq, Repr

/-- The heap of `Timer` records. -/
abbrev Heap := Nat → Option Timer

/-- The global `timerq` (fields `first`, `last`, `cur_id`), the heap it points
into, and the place of the dispatcher thread: `sigwait` is true while
`cronometer` is blocked in `sigwait` for the wake-up it armed. -/
structure State where
  first : Option Nat
  last : Option Nat
  cur_id : Nat
  heap : Heap
  brk : Nat
  sigwait : Bool

/-- Store `t` at address `a`. -/
def Heap.store (h : Heap) (a : Nat) (t : Timer) : Heap :=
  fun b => if b = a then some t else h b

/-- Release the record at address `a` (the `free` of `TimerFree`). -/
def Heap.free (h : Heap) (a : Nat) : Heap :=
  fun b => if b = a then none else h b

/-- An assignment `a->field = ...`: read the record at `a`, write it back changed. -/
def Heap.modify (h : Heap) (a : Nat) (f : Timer → Timer) : Option Heap :=
  match h a with
  | some t => some (h.store a (f t))
  | none => none

/-- Conversion of the `uint32_t` counter to `int`. -/
def toInt32 (n : Nat) : Int :=
  if n % 4294967296 < 2147483648 then ((n % 4294967296 : Nat) : Int)
  else ((n % 4294967296 : Nat) : Int) - 4294967296

/-- The state `TimerInit` leaves on success: an empty queue, counter 0, the
dispatcher started and not yet armed. -/
def TimerInit : State :=
  { first := none, last := none, cur_id := 0, heap := fun _ => none, brk := 0, sigwait := false }

/-! ## TimerDequeue -/

/-- The function `TimerDequeue(t)`. -/
def TimerDequeue (s : State) (t : Option Nat) : Option State :=
  match t with
  | none => some s
  | some a => do
    let T ← s.heap a
    let s1 ← (match T.prev with
      | none => some { s with first := T.next }
      | some p => do
        let h ← s.heap.modify p (fun P => { P with next := T.next })
        some { s with heap := h })
    let T1 ← s1.heap a
    let s2 ← (match T1.next with
      | none => some { s1 with last := T1.prev }
      | some n => do
        let h ← s1.heap.modify n (fun N => { N with prev := T1.prev })
        some { s1 with heap := h })
    some { s2 with heap := s2.heap.free a }

/-! ## TimerStart -/

/-- The function `TimerStart(abs_to)`, with `abs_now` the value `gettimeofday`
returns: the `it_value` passed to `setitimer`, or `none` when `abs_to` is `NULL`
and nothing is armed. The exit of the process when `setitimer` fails is not
modelled. -/
def TimerStart (abs_to : Option Timeval) (abs_now : Timeval) : Option Timeval :=
  match abs_to with
  | none => none
  | some abs =>
    if TV_LESS_THAN abs_now abs then some (TV_MINUS abs abs_now)
    else some { tv_sec := 0, tv_usec := ALMOST_NOW }

/-! ## TimerAdd -/

/-- What a call of `TimerAdd` does that its caller can see. -/
structure AddResult where
  ret : Int
  timerIdOut : Option Int
  signalled : Bool
  state : State

/-- Lines 281-283 of `TimerAdd`: the deadline computed from the clock value
`now` and the delay `sec`, `usec`. -/
def addDeadline (now : Timeval) (sec usec : Int) : Timeval :=
  { tv_sec := now.tv_sec + (sec + Int.tdiv (now.tv_usec + usec) MICRO_PER_SEC),
    tv_usec := now.tv_usec + (usec + Int.tdiv (now.tv_usec + usec) MICRO_PER_SEC) }

/-- The scan loop of `TimerAdd` (lines 303-309): the value of `tmp` after the
loop, started at `tmp` with the deadline `app` of the new timer. -/
def addScan (h : Heap) (app : Timeval) : Nat → Option Nat → Option (Option Nat)
  | 0, _ => none
  | _ + 1, none => some none
  | fuel + 1, some a =>
    match h a with
    | none => none
    | some T => if TV_LESS_THAN app T.timeout then some (some a) else addScan h app fuel T.next

/-- Lines 285-292 of `TimerAdd`: the record `app` as it is initialised. -/
def newTimer (now : Timeval) (sec usec : Int) (handle handleArg : Option Nat) (id : Int) :
    Timer :=
  { timeout := addDeadline now sec usec, handler := handle, handler_arg := handleArg,
    timerId := id, in_use := 1, cancelled := 0, next := none, prev := none }

/-- The function `TimerAdd(sec, usec, handle, handleArg, timerId)`; `now` is
what `gettimeofday` returns and `mallocOk` tells whether `malloc` succeeds. -/
def TimerAdd (s : State) (sec usec : Int) (handle handleArg : Option Nat) (now : Timeval)
    (mallocOk : Bool) : Option AddResult :=
  if handle = none then
    some { ret := -1, timerIdOut := none, signalled := false, state := s }
  else if sec < 0 ∨ usec < 0 ∨ (sec = 0 ∧ usec = 0) then
    some { ret := -1, timerIdOut := none, signalled := false, state := s }
  else if mallocOk = false then
    some { ret := -1, timerIdOut := none, signalled := false, state := s }
  else
    let app := s.brk
    let id := toInt32 s.cur_id
    let s0 : State :=
      { s with heap := s.heap.store app (newTimer now sec usec handle handleArg id),
               brk := s.brk + 1, cur_id := (s.cur_id + 1) % 4294967296 }
    match s0.first with
    | none =>
      some { ret := id, timerIdOut := some id, signalled := true,
             state := { s0 with first := some app, last := some app } }
    | some f => do
      let A0 ← s0.heap app
      let tmp ← addScan s0.heap A0.timeout (s0.brk + 1) (some f)
      match tmp with
      | none =>
        let l ← s0.last
        let L ← s0.heap l
        let h1 ← s0.heap.modify app (fun X => { X with prev := L.next })
        let h2 ← h1.modify l (fun X => { X with next := some app })
        some { ret := id, timerIdOut := some id, signalled := false,
               state := { s0 with heap := h2, last := some app } }
      | some t =>
        let T ← s0.heap t
        match T.prev with
        | none =>
          let h1 ← s0.heap.modify t (fun X => { X with prev := some app })
          let h2 ← h1.modify app (fun X => { X with next := some t })
          some { ret := id, timerIdOut := some id, signalled := false,
                 state := { s0 with heap := h2, first := some app } }
        | some p =>
          let h1 ← s0.heap.modify app (fun X => { X with prev := some p })
          let h2 ← h1.modify app (fun X => { X with next := some t })
          let T2 ← h2 t
          let p2 ← T2.prev
          let h3 ← h2.modify p2 (fun X => { X with next := some app })
          let h4 ← h3.modify t (fun X => { X with prev := some app })
          some { ret := id, timerIdOut := some id, signalled := false,
                 state := { s0 with heap := h4 } }

/-! ## TimerRemove -/

/-- What the library does that the rest of the program can observe. The
`invoke` event carries the address of the timer whose handler is called. -/
inductive Event where
  | added (ret : Int) (timerIdOut : Option Int)
  | signal
  | cleanup (free_arg : Nat) (arg : Option Nat)
  | armed (it_value : Timeval)
  | invoke (t : Nat) (handle : Option Nat) (handleArg : Option Nat)
deriving DecidableEq, Repr

/-- The lookup loop of `TimerRemove` (lines 337-343): the value of `t` after
the loop. -/
def removeScan (h : Heap) (timerId : Int) : Nat → Option Nat → Option (Option Nat)
  | 0, _ => none
  | _ + 1, none => some none
  | fuel + 1, some a =>
    match h a with
    | none => none
    | some T => if T.timerId = timerId then some (some a) else removeScan h timerId fuel T.next

/-- The function `TimerRemove(timerId, free_arg)`: the state it leaves and the
calls of `free_arg` it makes. -/
def TimerRemove (s : State) (timerId : Int) (free_arg : Option Nat) :
    Option (State × List Event) := do
  let t ← removeScan s.heap timerId (s.brk + 1) s.first
  match t with
  | none => some (s, [])
  | some a =>
    let T ← s.heap a
    if T.in_use = 1 then
      match free_arg with
      | some f =>
        let h1 ← s.heap.modify a (fun X => { X with handler_arg := none })
        let h2 ← h1.modify a (fun X => { X with cancelled := 1 })
        some ({ s with heap := h2 }, [Event.cleanup f T.handler_arg])
      | none =>
        let h2 ← s.heap.modify a (fun X => { X with cancelled := 1 })
        some ({ s with heap := h2 }, [])
    else
      let s1 ← TimerDequeue s (some a)
      match free_arg with
      | some f => some (s1, [Event.cleanup f T.handler_arg])
      | none => some (s1, [])

/-! ## The dispatcher -/

/-- Lines 171-178 of `cronometer`: with the queue non-empty the dispatcher arms
the wake-up for the head and marks it; `now` is the clock value `TimerStart`
reads. Not possible (`none`) while the dispatcher waits for a wake-up or for a
non-empty queue. -/
def cronometerArm (s : State) (now : Timeval) : Option (State × List Event) :=
  if s.sigwait = true then none
  else
    match s.first with
    | none => none
    | some a => do
      let T ← s.heap a
      let v ← TimerStart (some T.timeout) now
      let h ← s.heap.modify a (fun X => { X with in_use := 1 })
      some ({ s with heap := h, sigwait := true }, [Event.armed v])

/-- Lines 181-205 of `cronometer`: `sigwait` returns, the head is dropped if it
is cancelled and else popped and its handler called. -/
def cronometerWake (s : State) : Option (State × List Event) :=
  if s.sigwait = false then none
  else do
    let a ← s.first
    let T ← s.heap a
    if T.cancelled = 1 then
      let s1 ← TimerDequeue s s.first
      some ({ s1 with sigwait := false }, [])
    else
      let s1 ← TimerDequeue s s.first
      some ({ s1 with sigwait := false }, [Event.invoke a T.handler T.handler_arg])

/-! ## TimerDestroy -/

/-- The loop of `TimerDestroy` (lines 375-380). -/
def destroyLoop : Nat → State → Option State
  | 0, _ => none
  | fuel + 1, s =>
    match s.last with
    | none => some s
    | some t =>
      match s.heap t with
      | none => none
      | some T => destroyLoop fuel { s with last := T.prev, heap := s.heap.free t }

/-- The function `TimerDestroy()`, after the dispatcher thread is joined. -/
def TimerDestroy (s : State) : Option State :=
  destroyLoop (s.brk + 1) s

/-! ## Executions -/

/-- One step of the program: an API call or a step of the dispatcher. -/
inductive Op where
  | add (sec usec : Int) (handle handleArg : Option Nat) (now : Timeval) (mallocOk : Bool)
  | remove (timerId : Int) (free_arg : Option Nat)
  | arm (now : Timeval)
  | wake
deriving DecidableEq, Repr

/-- The events of a `TimerAdd` call. -/
def addEvents (r : AddResult) : List Event :=
  (if r.signalled = true then [Event.signal] else []) ++ [Event.added r.ret r.timerIdOut]

/-- The effect of one step. -/
def step (s : State) : Op → Option (State × List Event)
  | Op.add sec usec handle handleArg now mallocOk =>
    match TimerAdd s sec usec handle handleArg now mallocOk with
    | some r => some (r.state, addEvents r)
    | none => none
  | Op.remove timerId free_arg => TimerRemove s timerId free_arg
  | Op.arm now => cronometerArm s now
  | Op.wake => cronometerWake s

/-- The effect of a sequence of steps: the final state and all events in order. -/
def run (s : State) : List Op → Option (State × List Event)
  | [] => some (s, [])
  | op :: ops =>
    match step s op with
    | none => none
    | some r1 =>
      match run r1.1 ops with
      | none => none
      | some r2 => some (r2.1, r1.2 ++ r2.2)

/-- The loop of `TimerPrint` (line 394): the addresses visited from `t` by
following `next` up to `NULL`. -/
def walk (h : Heap) : Nat → Option Nat → Option (List Nat)
  | 0, _ => none
  | _ + 1, none => some []
  | fuel + 1, some a =>
    match h a with
    | none => none
    | some T =>
      match walk h fuel T.next with
      | none => none
      | some l => some (a :: l)

/-- The queue: the timers reached from `first` by following `next`. -/
def State.queue (s : State) : Option (List Nat) :=
  walk s.heap (s.brk + 1) s.first

/-- The deadline stored in the record at address `a`. -/
def State.deadline (s : State) (a : Nat) : Option Timeval :=
  (s.heap a).map Timer.timeout

/-- The id stored in the record at address `a`. -/
def State.idOf (s : State) (a : Nat) : Option Int :=
  (s.heap a).map Timer.timerId

/-! ## Specification predicates -/

/-- `Chain h pred p l`: following `next` from `p` visits exactly the addresses
`l` and then reaches `NULL`; each record visited has `prev` either `NULL` or
the address visited just before it (`pred` for the first one). -/
def Chain (h : Heap) : Option Nat → Option Nat → List Nat → Prop
  | _, p, [] => p = none
  | pred, p, a :: l =>
    p = some a ∧ ∃ T, h a = some T ∧ (T.prev = none ∨ T.prev = pred) ∧ Chain h (some a) T.next l

/-- The address visited last in `l`, and `pred` when `l` is empty. -/
def lastOr (pred : Option Nat) : List Nat → Option Nat
  | [] => pred
  | a :: l => lastOr (some a) l

/-- The order the queue keeps between an entry `a` and a later entry `b`:
`b` is not due strictly before `a`, and if both are due at the same time then
`a` was created first. -/
def Ordered (h : Heap) (a b : Nat) : Prop :=
  ∀ A B, h a = some A → h b = some B →
    TV_LESS_THAN B.timeout A.timeout = false ∧ (A.timeout = B.timeout → a < b)

/-- The invariant of the reachable states, for the queue content `l`. -/
structure Inv (s : State) (l : List Nat) : Prop where
  chain : Chain s.heap none s.first l
  nodup : l.Nodup
  fresh : ∀ a, s.brk ≤ a → s.heap a = none
  last : s.last = l.getLast?
  inuse : ∀ a T, s.heap a = some T → T.in_use = 1
  sorted : l.Pairwise (Ordered s.heap)
  wait : s.sigwait = true → s.first ≠ none
  cur : s.cur_id < 4294967296

/-- Two versions of a record that differ at most in their links. -/
def SameData (X Y : Timer) : Prop :=
  X.timeout = Y.timeout ∧ X.in_use = Y.in_use ∧ X.timerId = Y.timerId ∧
    X.handler = Y.handler ∧ X.cancelled = Y.cancelled ∧ X.handler_arg = Y.handler_arg

/-- Apart from the record at `app`, the heap `hF` holds only records of `h`,
changed at most in their links. -/
def OldKept (h hF : Heap) (app : Nat) : Prop :=
  ∀ b, b ≠ app → ∀ X, hF b = some X → ∃ Y, h b = some Y ∧ SameData X Y

/-- What a successful `TimerAdd` achieves in a state `s` of the invariant with
queue content `l`: `tv` is the deadline stored, `r` the result and `l1` the new
queue content. -/
structure AddOk (s : State) (l : List Nat) (tv : Timeval) (handle handleArg : Option Nat)
    (r : AddResult) (l1 : List Nat) : Prop where
  inv : Inv r.state l1
  split : ∃ pre post, l = pre ++ post ∧ (l1 = pre ++ s.brk :: post ∨ l1 = s.brk :: post) ∧
    (∀ a ∈ pre, ∀ T, s.heap a = some T → TV_LESS_THAN tv T.timeout = false) ∧
    (∀ t T, post.head? = some t → s.heap t = some T → TV_LESS_THAN tv T.timeout = true)
  ret : r.ret = toInt32 s.cur_id
  out : r.timerIdOut = some (toInt32 s.cur_id)
  cur : r.state.cur_id = (s.cur_id + 1) % 4294967296
  brk : r.state.brk = s.brk + 1
  wait : r.state.sigwait = s.sigwait
  new : ∃ A, r.state.heap s.brk = some A ∧ A.timeout = tv ∧ A.handler = handle ∧
    A.handler_arg = handleArg ∧ A.timerId = toInt32 s.cur_id ∧ A.cancelled = 0
  old : OldKept s.heap r.state.heap s.brk

/-- The ids returned by the successful `TimerAdd` calls of an execution, in
order: a successful call is one that stores an id through `timerId`. -/
def idsOf : List Event → List Int
  | [] => []
  | Event.added _ (some id) :: es => id :: idsOf es
  | _ :: es => idsOf es

/-- The addresses of the timers whose handler an execution has called. -/
def invoked : List Event → List Nat
  | [] => []
  | Event.invoke t _ _ :: es => t :: invoked es
  | _ :: es => invoked es

/-- What one step achieves from a state `s` of the invariant with queue content
`l`: `r` is the state reached with the events of the step, `l1` the new queue
content. -/
structure StepOk (s : State) (l : List Nat) (r : State × List Event) (l1 : List Nat) :
    Prop where
  inv : Inv r.1 l1
  ids : (idsOf r.2 = [toInt32 s.cur_id] ∧ r.1.cur_id = (s.cur_id + 1) % 4294967296) ∨
    (idsOf r.2 = [] ∧ r.1.cur_id = s.cur_id)
  brk : s.brk ≤ r.1.brk
  kept : ∀ x T1, x < s.brk → r.1.heap x = some T1 → ∃ T, s.heap x = some T ∧
    T1.timeout = T.timeout ∧ T1.timerId = T.timerId ∧ T1.handler = T.handler ∧
    (T1.cancelled = T.cancelled ∨ T1.cancelled = 1)
  called : ∀ x ∈ invoked r.2, l.head? = some x ∧ ∃ T, s.heap x = some T ∧ T.cancelled ≠ 1
  mem : ∀ x ∈ l1, x ∈ l ∨ (x = s.brk ∧ s.brk < r.1.brk)
  sync : (r.1.brk = s.brk + 1 ∧ r.1.cur_id = (s.cur_id + 1) % 4294967296) ∨
    (r.1.brk = s.brk ∧ r.1.cur_id = s.cur_id)
  newid : ∀ T, s.brk < r.1.brk → r.1.heap s.brk = some T → T.timerId = toInt32 s.cur_id

/-- Every record carries the id that belongs to its address, and the counter
follows the number of records created. -/
def IdInv (s : State) : Prop :=
  s.cur_id = s.brk % 4294967296 ∧ ∀ x T, s.heap x = some T → T.timerId = toInt32 x

/-- Entry `b` is not due strictly before entry `a` (`TV_LESS_THAN` on the two
stored deadlines). -/
def NotBefore (s : State) (a b : Nat) : Prop :=
  ∃ A B, s.heap a = some A ∧ s.heap b = some B ∧ TV_LESS_THAN B.timeout A.timeout = false

/-- An execution used to instantiate the theorems: two timers are added, the
dispatcher arms the head, the first timer is removed, a third one is added and
the dispatcher wakes up. -/
def sampleOps : List Op :=
  [Op.add 10 0 (some 1) none ⟨100, 0⟩ true, Op.add 5 0 (some 1) none ⟨100, 0⟩ true,
    Op.arm ⟨101, 0⟩, Op.remove 0 none, Op.add 7 0 (some 1) none ⟨102, 0⟩ true, Op.wake]

/-- The clock value `k` milliseconds after the clock showed 0. -/
def tick (k : Nat) : Timeval :=
  { tv_sec := ((k / 1000 : Nat) : Int), tv_usec := ((k % 1000 * 1000 : Nat) : Int) }

/-- One round of work at millisecond `k`: a timer is added with the delay 1 us,
the dispatcher arms the head of the queue and wakes up. -/
def roundAt (k : Nat) : List Op :=
  [Op.add 0 1 (some 1) none (tick k) true, Op.arm (tick k), Op.wake]

/-- The `n` rounds of the milliseconds `k`, `k + 1`, ... -/
def roundsFrom : Nat → Nat → List Op
  | _, 0 => []
  | k, n + 1 => roundAt k ++ roundsFrom (k + 1) n

/-- The execution of 2^31 rounds followed by one more `TimerAdd`. -/
def wrapOps : List Op :=
  roundsFrom 0 2147483648 ++ [Op.add 0 1 (some 1) none (tick 2147483648) true]

/-- A timer with the delay 8640000 s (100 days) is added, 2^32 - 1 rounds
follow, one per millisecond, and one more timer is added. -/
def wrapRemovePrefix : List Op :=
  [Op.add 8640000 0 (some 1) none (tick 0) true] ++
    (roundsFrom 1 4294967295 ++ [Op.add 0 1 (some 1) none (tick 4294967296) true])

/-- The dispatcher arms and wakes up twice. -/
def wrapRemoveSuffix : List Op :=
  [Op.arm (tick 4294967296), Op.wake] ++ [Op.arm (tick 4294967296), Op.wake]

/-- The queue holds exactly the timer at address 0, not cancelled, with id 0
and the deadline 8640000 s, and the dispatcher is not waiting for a wake-up. -/
structure Parked (s : State) : Prop where
  inv : Inv s [0]
  wait : s.sigwait = false
  held : ∃ X, s.heap 0 = some X ∧ X.timerId = 0 ∧ X.cancelled = 0 ∧
    X.timeout = { tv_sec := 8640000, tv_usec := 0 }

/-- A short execution used to instantiate the theorems: two timers are added,
the second one due first. -/
def twoAdds : List Op :=
  [Op.add 10 0 (some 1) none ⟨100, 0⟩ true, Op.add 5 0 (some 1) none ⟨100, 0⟩ true]

/-- An execution that ends while the dispatcher waits for a wake-up: two timers
are added, the dispatcher arms the head, both timers are removed and a third
one is added. -/
def armedOps : List Op :=
  [Op.add 10 0 (some 1) none ⟨100, 0⟩ true, Op.add 5 0 (some 1) none ⟨100, 0⟩ true,
    Op.arm ⟨101, 0⟩, Op.remove 1 none, Op.remove 0 (some 7),
    Op.add 7 0 (some 1) none ⟨102, 0⟩ true]

/-- Two timers are added in the order of their deadlines (110 s and 120 s). -/
def ascendingAdds : List Op :=
  [Op.add 10 0 (some 1) none ⟨100, 0⟩ true, Op.add 20 0 (some 1) none ⟨100, 0⟩ true]

/-- The record `TimerRemove` leaves in place of the record `T` it finds
(lines 350-356): cancelled, and without argument when a cleanup is given. -/
def cancelledRecord (f : Option Nat) (T : Timer) : Timer :=
  match f with
  | none => { T with cancelled := 1 }
  | some _ => { T with handler_arg := none, cancelled := 1 }

/-- The cleanup call `TimerRemove` makes for the record `T` it finds. -/
def cleanupCalls (f : Option Nat) (T : Timer) : List Event :=
  match f with
  | none => []
  | some g => [Event.cleanup g T.handler_arg]

/-- Three timers are added at clock value 100 s with the delays 10 s, 20 s and
10 s: the first and the third have the same deadline. -/
def tiedAdds : List Op :=
  [Op.add 10 0 (some 1) none ⟨100, 0⟩ true, Op.add 20 0 (some 1) none ⟨100, 0⟩ true,
    Op.add 10 0 (some 1) none ⟨100, 0⟩ true]

/-- Whether the step `op`, taken in state `s`, is the dispatcher marking the
timer at address `a` as in use (lines 176-177): the dispatcher arms the wake-up
for the head of the queue. -/
def marksInUse (s : State) (a : Nat) : Op → Bool
  | Op.arm _ => decide (s.first = some a)
  | _ => false

/-- Whether the dispatcher has armed the wake-up for the timer at address `a`
in the execution `ops` from `s`, and so has marked it as in use at line 177. -/
def armedIn (s : State) (a : Nat) : List Op → Bool
  | [] => false
  | op :: ops =>
    match step s op with
    | none => false
    | some r => marksInUse s a op || armedIn r.1 a ops

/-- The record at `a`, if it is still there, carries the id `timerId` and is
marked cancelled, and its argument is cleared if `clr` holds. -/
def Marked (s : State) (a : Nat) (timerId : Int) (clr : Bool) : Prop :=
  ∀ T, s.heap a = some T →
    T.timerId = timerId ∧ T.cancelled = 1 ∧ (clr = true → T.handler_arg = none)

/-- A timer with the argument 9 is added at clock value 100 s, due at 110 s,
and the dispatcher arms the wake-up for it. -/
def armedHeadOps : List Op :=
  [Op.add 10 0 (some 1) (some 9) ⟨100, 0⟩ true, Op.arm ⟨100, 0⟩]

/-- A timer due at 106 s is added at clock value 101 s. -/
def laterAdd : List Op :=
  [Op.add 5 0 (some 1) none ⟨101, 0⟩ true]

/-- An invalid call of `TimerAdd`: no handler or a delay that is not positive. -/
def invalidArgs (sec usec : Int) (handle : Option Nat) : Prop :=
  handle = none ∨ sec < 0 ∨ usec < 0 ∨ (sec = 0 ∧ usec = 0)

/-! ## Heap lemmas -/

theorem Heap.store_same (h : Heap) (a : Nat) (t : Timer) : h.store a t a = some t := by
  simp [Heap.store]

theorem Heap.store_other (h : Heap) {a b : Nat} (t : Timer) (hne : b ≠ a) :
    h.store a t b = h b := by
  simp [Heap.store, hne]

theorem Heap.store_self (h : Heap) {a : Nat} {T : Timer} (ha : h a = some T) :
    h.store a T = h := by
  funext b
  by_cases hb : b = a
  · subst hb; simp [Heap.store, ha]
  · simp [Heap.store, hb]

theorem Heap.modify_some (h : Heap) {a : Nat} {T : Timer} (f : Timer → Timer)
    (ha : h a = some T) : h.modify a f = some (h.store a (f T)) := by
  simp [Heap.modify, ha]

/-! ## Chains -/

theorem Chain.mem_some {h : Heap} : ∀ {l : List Nat} {pred p : Option Nat},
    Chain h pred p l → ∀ a ∈ l, ∃ T, h a = some T
  | [], _, _, _, a, ha => by simp at ha
  | b :: l, _, _, hc, a, ha => by
    obtain ⟨_, T, hT, _, hrest⟩ := hc
    rcases List.mem_cons.mp ha with rfl | hmem
    · exact ⟨T, hT⟩
    · exact Chain.mem_some hrest a hmem

/-- A chain survives every change of the heap that keeps the `next` of its
records and keeps or clears their `prev`. -/
theorem Chain.congr {h h' : Heap} : ∀ {l : List Nat} {pred p : Option Nat},
    (∀ a ∈ l, ∀ T, h a = some T →
      ∃ T', h' a = some T' ∧ T'.next = T.next ∧ (T'.prev = T.prev ∨ T'.prev = none)) →
    Chain h pred p l → Chain h' pred p l
  | [], _, _, _, hc => hc
  | b :: l, _, _, hf, hc => by
    obtain ⟨hp, T, hT, hprev, hrest⟩ := hc
    obtain ⟨T', hT', hn, hpv⟩ := hf b (List.mem_cons_self _ _) T hT
    refine ⟨hp, T', hT', ?_, ?_⟩
    · rcases hpv with e | e
      · rw [e]; exact hprev
      · exact Or.inl e
    · rw [hn]
      exact Chain.congr (fun a ha => hf a (List.mem_cons_of_mem _ ha)) hrest

/-- The predecessor of a chain matters only through the head record. -/
theorem Chain.head_pred {h : Heap} {pred pred' p : Option Nat} {a : Nat} {l : List Nat}
    (hc : Chain h pred p (a :: l)) (hz : ∀ T, h a = some T → T.prev = none ∨ T.prev = pred') :
    Chain h pred' p (a :: l) := by
  obtain ⟨hp, T, hT, _, hrest⟩ := hc
  exact ⟨hp, T, hT, hz T hT, hrest⟩

theorem Chain.walk_eq {h : Heap} : ∀ {l : List Nat} {pred p : Option Nat} {fuel : Nat},
    Chain h pred p l → l.length < fuel → walk h fuel p = some l
  | [], _, _, fuel, hc, hlen => by
    cases fuel with
    | zero => simp at hlen
    | succ n => rw [show _ = none from hc]; rfl
  | b :: l, _, _, fuel, hc, hlen => by
    obtain ⟨hp, T, hT, _, hrest⟩ := hc
    cases fuel with
    | zero => simp at hlen
    | succ n =>
      have hl : l.length < n := by simpa using hlen
      rw [hp]
      simp only [walk, hT, Chain.walk_eq hrest hl]

theorem Ordered.pairwise_congr {h h' : Heap} {l : List Nat} (hp : l.Pairwise (Ordered h))
    (hf : ∀ a ∈ l, ∀ T', h' a = some T' → ∃ T, h a = some T ∧ T.timeout = T'.timeout) :
    l.Pairwise (Ordered h') := by
  refine hp.imp_of_mem ?_
  intro a b ha hb hab A' B' hA' hB'
  obtain ⟨A, hA, eA⟩ := hf a ha A' hA'
  obtain ⟨B, hB, eB⟩ := hf b hb B' hB'
  rw [← eA, ← eB]
  exact hab A B hA hB

/-! ## The invariant -/

theorem Inv.mem_lt {s : State} {l : List Nat} (hi : Inv s l) : ∀ a ∈ l, a < s.brk := by
  intro a ha
  obtain ⟨T, hT⟩ := hi.chain.mem_some a ha
  by_contra hge
  have := hi.fresh a (Nat.le_of_not_lt hge)
  rw [hT] at this
  exact Option.noConfusion this

theorem Inv.length_lt {s : State} {l : List Nat} (hi : Inv s l) : l.length < s.brk + 1 := by
  have hsub : l ⊆ List.range s.brk := fun a ha => List.mem_range.mpr (hi.mem_lt a ha)
  have := (List.subperm_of_subset hi.nodup hsub).length_le
  simp at this
  omega

theorem Inv.queue_eq {s : State} {l : List Nat} (hi : Inv s l) : s.queue = some l :=
  hi.chain.walk_eq hi.length_lt

theorem Inv.init : Inv TimerInit [] where
  chain := rfl
  nodup := List.nodup_nil
  fresh := fun _ _ => rfl
  last := rfl
  inuse := fun a T h => by simp [TimerInit] at h
  sorted := List.Pairwise.nil
  wait := fun h => by simp [TimerInit] at h
  cur := by simp [TimerInit]

/-! ## TimerDequeue at the head -/

theorem TimerDequeue_single {s : State} {a : Nat} {T : Timer} (hT : s.heap a = some T)
    (hprev : T.prev = none) (hnext : T.next = none) :
    TimerDequeue s (some a) = some { s with first := none, last := none, heap := s.heap.free a } := by
  simp [TimerDequeue, hT, hprev, hnext]

theorem TimerDequeue_head {s : State} {a n : Nat} {T N : Timer} (hT : s.heap a = some T)
    (hprev : T.prev = none) (hnext : T.next = some n) (hN : s.heap n = some N) :
    TimerDequeue s (some a) =
      some { s with first := some n,
                    heap := (s.heap.store n { N with prev := none }).free a } := by
  simp [TimerDequeue, hT, hprev, hnext, hN, Heap.modify]

/-- Popping the head of the queue (the `TimerDequeue(timerq.first)` of the
dispatcher) keeps the invariant for the rest of the queue. -/
theorem Inv.dequeue_head {s : State} {a : Nat} {rest : List Nat} (hi : Inv s (a :: rest)) :
    ∃ s1, TimerDequeue s s.first = some s1 ∧ Inv { s1 with sigwait := false } rest ∧
      s1.cur_id = s.cur_id ∧ s1.brk = s.brk ∧ s1.heap a = none ∧
      (∀ x T1, s1.heap x = some T1 → ∃ T, s.heap x = some T ∧ T1.timeout = T.timeout ∧
        T1.timerId = T.timerId ∧ T1.cancelled = T.cancelled ∧ T1.handler = T.handler) := by
  obtain ⟨hfirst, T, hT, hprev, hrest⟩ := hi.chain
  have hprev : T.prev = none := by rcases hprev with e | e <;> exact e
  have hnd := List.nodup_cons.mp hi.nodup
  rw [hfirst]
  cases rest with
  | nil =>
    have hnext : T.next = none := hrest
    refine ⟨_, TimerDequeue_single hT hprev hnext, ?_, rfl, rfl, ?_, ?_⟩
    · exact
        { chain := rfl
          nodup := List.nodup_nil
          fresh := fun b hb => by
            show s.heap.free a b = none
            simp only [Heap.free]; split
            · rfl
            · exact hi.fresh b hb
          last := rfl
          inuse := fun b X hX => by
            have hX : s.heap.free a b = some X := hX
            simp only [Heap.free] at hX; split at hX
            · exact Option.noConfusion hX
            · exact hi.inuse b X hX
          sorted := List.Pairwise.nil
          wait := fun h => by simp at h
          cur := hi.cur }
    · show s.heap.free a a = none
      simp [Heap.free]
    · intro x T1 hx
      have hx : s.heap.free a x = some T1 := hx
      simp only [Heap.free] at hx; split at hx
      · exact Option.noConfusion hx
      · exact ⟨T1, hx, rfl, rfl, rfl, rfl⟩
  | cons n rest1 =>
    obtain ⟨hnext, N, hN, -, hrest1⟩ := hrest
    have hna : n ≠ a := fun e => hnd.1 (by simp [e])
    have hrest : Chain s.heap (some a) (some n) (n :: rest1) := ⟨rfl, N, hN, by
      have := hi.chain; obtain ⟨_, T2, hT2, _, hc⟩ := this
      rw [hT] at hT2; cases hT2
      rw [hnext] at hc
      obtain ⟨_, N2, hN2, hp2, _⟩ := hc
      rw [hN] at hN2; cases hN2; exact hp2, hrest1⟩
    have hheap : ∀ b, ((s.heap.store n { N with prev := none }).free a) b =
        if b = a then none else if b = n then some { N with prev := none } else s.heap b := by
      intro b; simp [Heap.free, Heap.store]
    have hdata : ∀ x T1, ((s.heap.store n { N with prev := none }).free a) x = some T1 →
        ∃ X, s.heap x = some X ∧ T1.timeout = X.timeout ∧ T1.timerId = X.timerId ∧
          T1.cancelled = X.cancelled ∧ T1.handler = X.handler ∧ T1.next = X.next ∧
          T1.in_use = X.in_use := by
      intro x T1 hx
      rw [hheap] at hx
      split at hx
      · exact Option.noConfusion hx
      · split at hx
        · rename_i _ hxn
          cases hx; subst hxn
          exact ⟨N, hN, rfl, rfl, rfl, rfl, rfl, rfl⟩
        · exact ⟨T1, hx, rfl, rfl, rfl, rfl, rfl, rfl⟩
    refine ⟨_, TimerDequeue_head hT hprev hnext hN, ?_, rfl, rfl, ?_, ?_⟩
    · exact
        { chain := by
            have hc : Chain ((s.heap.store n { N with prev := none }).free a) (some a)
                (some n) (n :: rest1) := by
              refine Chain.congr ?_ hrest
              intro b hb X hX
              have hba : b ≠ a := fun e => hnd.1 (e ▸ hb)
              rw [hheap, if_neg hba]
              by_cases hbn : b = n
              · subst hbn
                rw [hN] at hX; cases hX
                exact ⟨{ N with prev := none }, by simp, rfl, Or.inr rfl⟩
              · rw [if_neg hbn]
                exact ⟨X, hX, rfl, Or.inl rfl⟩
            refine hc.head_pred ?_
            intro X hX
            rw [hheap, if_neg hna, if_pos rfl] at hX
            cases hX
            exact Or.inl rfl
          nodup := hnd.2
          fresh := fun b hb => by
            show ((s.heap.store n { N with prev := none }).free a) b = none
            rw [hheap]
            split
            · rfl
            · split
              · rename_i _ hbn
                have := hi.fresh b hb
                rw [hbn, hN] at this
                exact Option.noConfusion this
              · exact hi.fresh b hb
          last := by
            have := hi.last
            simpa [List.getLast?_cons_cons] using this
          inuse := fun b X hX => by
            obtain ⟨Y, hY, _, _, _, _, _, hu⟩ := hdata b X hX
            rw [hu]; exact hi.inuse b Y hY
          sorted := by
            refine Ordered.pairwise_congr (List.pairwise_cons.mp hi.sorted).2 ?_
            intro b _ X hX
            obtain ⟨Y, hY, ht, _⟩ := hdata b X hX
            exact ⟨Y, hY, ht.symm⟩
          wait := fun h => by simp at h
          cur := hi.cur }
    · show ((s.heap.store n { N with prev := none }).free a) a = none
      simp [hheap]
    · intro x T1 hx
      obtain ⟨Y, hY, h1, h2, h3, h4, _⟩ := hdata x T1 hx
      exact ⟨Y, hY, h1, h2, h3, h4⟩

/-- The invariant survives every change of the heap that keeps, record by
record, the links, the deadline and the `in_use` flag. -/
theorem Inv.heap_congr {s : State} {l : List Nat} (hi : Inv s l) (h' : Heap)
    (hnone : ∀ b, s.heap b = none → h' b = none)
    (hsome : ∀ b T, s.heap b = some T → ∃ T', h' b = some T' ∧ T'.next = T.next ∧
      T'.prev = T.prev ∧ T'.timeout = T.timeout ∧ T'.in_use = T.in_use) :
    Inv { s with heap := h' } l where
  chain := by
    refine Chain.congr ?_ hi.chain
    intro b _ T hT
    obtain ⟨T', h1, h2, h3, _⟩ := hsome b T hT
    exact ⟨T', h1, h2, Or.inl h3⟩
  nodup := hi.nodup
  fresh := fun b hb => hnone b (hi.fresh b hb)
  last := hi.last
  inuse := fun b X hX => by
    cases hb : s.heap b with
    | none => have := hnone b hb; rw [show h' b = some X from hX] at this; exact Option.noConfusion this
    | some T =>
      obtain ⟨T', h1, _, _, _, h5⟩ := hsome b T hb
      rw [show h' b = some X from hX] at h1; cases h1
      rw [h5]; exact hi.inuse b T hb
  sorted := by
    refine Ordered.pairwise_congr hi.sorted ?_
    intro b _ X hX
    cases hb : s.heap b with
    | none => have := hnone b hb; rw [show h' b = some X from hX] at this; exact Option.noConfusion this
    | some T =>
      obtain ⟨T', h1, _, _, h4, _⟩ := hsome b T hb
      rw [show h' b = some X from hX] at h1; cases h1
      exact ⟨T, rfl, h4.symm⟩
  wait := hi.wait
  cur := hi.cur

/-! ## The dispatcher steps -/

theorem cronometerArm_eq {s : State} {l : List Nat} (hi : Inv s l) (now : Timeval)
    (hw : s.sigwait = false) {a : Nat} {T : Timer} (hf : s.first = some a)
    (hT : s.heap a = some T) :
    cronometerArm s now = some ({ s with sigwait := true },
      [Event.armed (if TV_LESS_THAN now T.timeout then TV_MINUS T.timeout now
        else { tv_sec := 0, tv_usec := ALMOST_NOW })]) := by
  have hu : ({ T with in_use := 1 } : Timer) = T := by
    have := hi.inuse a T hT
    cases T; simp_all
  have hs : s.heap.store a T = s.heap := Heap.store_self _ hT
  unfold cronometerArm
  by_cases hlt : TV_LESS_THAN now T.timeout = true <;>
    simp [hw, hf, hT, TimerStart, Heap.modify, hu, hs, hlt]

theorem Inv.arm {s : State} {l : List Nat} (hi : Inv s l) (hf : s.first ≠ none) :
    Inv { s with sigwait := true } l where
  chain := hi.chain
  nodup := hi.nodup
  fresh := hi.fresh
  last := hi.last
  inuse := hi.inuse
  sorted := hi.sorted
  wait := fun _ => hf
  cur := hi.cur

theorem cronometerWake_eq {s : State} {a : Nat} {rest : List Nat} (hi : Inv s (a :: rest))
    (hw : s.sigwait = true) :
    ∃ s1 T, s.heap a = some T ∧ TimerDequeue s s.first = some s1 ∧
      cronometerWake s = some ({ s1 with sigwait := false },
        if T.cancelled = 1 then [] else [Event.invoke a T.handler T.handler_arg]) := by
  obtain ⟨s1, hd, _⟩ := hi.dequeue_head
  obtain ⟨hfirst, T, hT, _, _⟩ := hi.chain
  refine ⟨s1, T, hT, hd, ?_⟩
  unfold cronometerWake
  rw [hfirst] at hd
  by_cases hc : T.cancelled = 1 <;> simp [hw, hfirst, hT, hd, hc]

/-! ## TimerRemove -/

/-- On a chain the lookup loop of `TimerRemove` stops at the first entry that
carries the id, or runs off the end. -/
theorem removeScan_chain {h : Heap} (id : Int) :
    ∀ {l : List Nat} {pred p : Option Nat} {fuel : Nat}, Chain h pred p l → l.length < fuel →
      removeScan h id fuel p =
        some (l.find? (fun a => decide ((h a).map Timer.timerId = some id)))
  | [], _, _, fuel, hc, hlen => by
    cases fuel with
    | zero => simp at hlen
    | succ n => rw [show _ = none from hc]; rfl
  | b :: l, _, _, fuel, hc, hlen => by
    obtain ⟨hp, T, hT, _, hrest⟩ := hc
    cases fuel with
    | zero => simp at hlen
    | succ n =>
      have hl : l.length < n := by simpa using hlen
      rw [hp]
      by_cases hid : T.timerId = id
      · simp [removeScan, hT, hid, List.find?_cons]
      · simp [removeScan, hT, hid, List.find?_cons, removeScan_chain id hrest hl]

/-- `TimerRemove` in a state of the invariant: it returns, keeps the queue
content, and marks the first entry carrying the id as cancelled. -/
theorem Inv.remove {s : State} {l : List Nat} (hi : Inv s l) (id : Int) (f : Option Nat) :
    ∃ s1 ev, TimerRemove s id f = some (s1, ev) ∧ Inv s1 l ∧ s1.cur_id = s.cur_id ∧
      s1.brk = s.brk ∧ s1.sigwait = s.sigwait ∧ s1.first = s.first ∧
      invoked ev = [] ∧ idsOf ev = [] ∧
      (∀ x T1, s1.heap x = some T1 → ∃ T, s.heap x = some T ∧ T1.timeout = T.timeout ∧
        T1.timerId = T.timerId ∧ T1.handler = T.handler ∧
        (T1.cancelled = T.cancelled ∨ T1.cancelled = 1)) ∧
      (∀ a, l.find? (fun b => decide ((s.heap b).map Timer.timerId = some id)) = some a →
        ∃ T1, s1.heap a = some T1 ∧ T1.cancelled = 1) ∧
      (∀ x, l.find? (fun b => decide ((s.heap b).map Timer.timerId = some id)) ≠ some x →
        s1.heap x = s.heap x) := by
  have hscan := removeScan_chain id hi.chain hi.length_lt
  cases hfind : l.find? (fun b => decide ((s.heap b).map Timer.timerId = some id)) with
  | none =>
    refine ⟨s, [], ?_, hi, rfl, rfl, rfl, rfl, rfl, rfl, ?_, ?_, fun _ _ => rfl⟩
    · unfold TimerRemove
      rw [hscan]
      simp only [Option.bind_eq_bind, Option.some_bind, hfind]
    · intro x T1 hx; exact ⟨T1, hx, rfl, rfl, rfl, Or.inl rfl⟩
    · intro a ha; exact Option.noConfusion ha
  | some a =>
    have hmem : a ∈ l := List.mem_of_find?_eq_some hfind
    obtain ⟨T, hT⟩ := hi.chain.mem_some a hmem
    have hu := hi.inuse a T hT
    -- the heap `TimerRemove` leaves
    have key : ∀ (g : Timer → Timer), (∀ X, (g X).next = X.next ∧ (g X).prev = X.prev ∧
        (g X).timeout = X.timeout ∧ (g X).in_use = X.in_use ∧ (g X).timerId = X.timerId ∧
        (g X).handler = X.handler ∧ (g X).cancelled = 1) →
        Inv { s with heap := s.heap.store a (g T) } l ∧
        (∀ x T1, s.heap.store a (g T) x = some T1 → ∃ T, s.heap x = some T ∧
          T1.timeout = T.timeout ∧ T1.timerId = T.timerId ∧ T1.handler = T.handler ∧
          (T1.cancelled = T.cancelled ∨ T1.cancelled = 1)) ∧
        (∃ T1, s.heap.store a (g T) a = some T1 ∧ T1.cancelled = 1) := by
      intro g hg
      obtain ⟨g1, g2, g3, g4, g5, g6, g7⟩ := hg T
      refine ⟨hi.heap_congr _ ?_ ?_, ?_, ⟨g T, Heap.store_same _ _ _, g7⟩⟩
      · intro b hb
        have hba : b ≠ a := fun e => by rw [e, hT] at hb; exact Option.noConfusion hb
        rw [Heap.store_other _ _ hba]; exact hb
      · intro b X hX
        by_cases hba : b = a
        · subst hba
          have e : X = T := by rw [hT] at hX; exact (Option.some.inj hX).symm
          rw [e]
          exact ⟨g T, Heap.store_same _ _ _, g1, g2, g3, g4⟩
        · rw [Heap.store_other _ _ hba]
          exact ⟨X, hX, rfl, rfl, rfl, rfl⟩
      · intro x T1 hx
        by_cases hxa : x = a
        · subst hxa
          rw [Heap.store_same] at hx; cases hx
          exact ⟨T, hT, g3, g5, g6, Or.inr g7⟩
        · rw [Heap.store_other _ _ hxa] at hx
          exact ⟨T1, hx, rfl, rfl, rfl, Or.inl rfl⟩
    cases f with
    | none =>
      obtain ⟨k1, k2, k3⟩ := key (fun X => { X with cancelled := 1 })
        (fun X => ⟨rfl, rfl, rfl, rfl, rfl, rfl, rfl⟩)
      refine ⟨_, [], ?_, k1, rfl, rfl, rfl, rfl, rfl, rfl, k2, ?_, ?_⟩
      · unfold TimerRemove
        rw [hscan]
        simp only [Option.bind_eq_bind, Option.some_bind, hfind, hT, if_pos hu, Heap.modify]
      · intro b hb; cases hb; exact k3
      · intro x hx
        exact Heap.store_other _ _ (fun e => hx (by rw [e]))
    | some fa =>
      obtain ⟨k1, k2, k3⟩ := key (fun X => { X with handler_arg := none, cancelled := 1 })
        (fun X => ⟨rfl, rfl, rfl, rfl, rfl, rfl, rfl⟩)
      have hst : (s.heap.store a { T with handler_arg := none }).store a
          { T with handler_arg := none, cancelled := 1 } =
          s.heap.store a { T with handler_arg := none, cancelled := 1 } := by
        funext b; by_cases hb : b = a <;> simp [Heap.store, hb]
      refine ⟨_, [Event.cleanup fa T.handler_arg], ?_, k1, rfl, rfl, rfl, rfl, rfl, rfl, k2,
        ?_, ?_⟩
      · unfold TimerRemove
        rw [hscan]
        simp only [Option.bind_eq_bind, Option.some_bind, hfind, hT, if_pos hu, Heap.modify,
          Heap.store_same, hst]
      · intro b hb; cases hb; exact k3
      · intro x hx
        exact Heap.store_other _ _ (fun e => hx (by rw [e]))

/-! ## TimerAdd: the scan and the three insertions -/

/-- On a chain the scan loop of `TimerAdd` splits the queue `l` in the entries
it passes (`pre`, none due strictly after the new deadline `tv`) and the rest
(`post`, whose head is due strictly after `tv`), and leaves `tmp` at the head of
`post`. -/
theorem addScan_chain {h : Heap} (tv : Timeval) :
    ∀ {l : List Nat} {pred p : Option Nat} {fuel : Nat}, Chain h pred p l → l.length < fuel →
      ∃ pre post, l = pre ++ post ∧
        (∀ a ∈ pre, ∀ T, h a = some T → TV_LESS_THAN tv T.timeout = false) ∧
        addScan h tv fuel p = some post.head? ∧
        (∀ t T, post.head? = some t → h t = some T → TV_LESS_THAN tv T.timeout = true) ∧
        Chain h (lastOr pred pre) post.head? post
  | [], pred, p, fuel, hc, hlen => by
    cases fuel with
    | zero => simp at hlen
    | succ n =>
      refine ⟨[], [], rfl, by simp, ?_, by simp, rfl⟩
      rw [show p = none from hc]; rfl
  | b :: l, pred, p, fuel, hc, hlen => by
    obtain ⟨hp, T, hT, hprev, hrest⟩ := hc
    cases fuel with
    | zero => simp at hlen
    | succ n =>
      have hl : l.length < n := by simpa using hlen
      by_cases hlt : TV_LESS_THAN tv T.timeout = true
      · refine ⟨[], b :: l, rfl, by simp, ?_, ?_, ?_⟩
        · rw [hp]; simp [addScan, hT, hlt]
        · intro t X ht hX
          simp only [List.head?_cons, Option.some.injEq] at ht
          subst ht; rw [hT] at hX; cases hX; exact hlt
        · exact ⟨rfl, T, hT, hprev, hrest⟩
      · obtain ⟨pre, post, hsplit, hpre, hscan, hpost, hch⟩ :=
          addScan_chain tv hrest hl
        refine ⟨b :: pre, post, by rw [hsplit]; rfl, ?_, ?_, hpost, ?_⟩
        · intro a ha X hX
          rcases List.mem_cons.mp ha with rfl | hmem
          · rw [hT] at hX; cases hX; simpa using hlt
          · exact hpre a hmem X hX
        · rw [hp]; simp [addScan, hT, hlt, hscan]
        · exact hch

/-- The last record of a chain has a `NULL` `next`. -/
theorem Chain.last_next {h : Heap} : ∀ {l : List Nat} {pred p : Option Nat} {z : Nat} {Z : Timer},
    Chain h pred p l → l.getLast? = some z → h z = some Z → Z.next = none
  | [], _, _, _, _, _, hz, _ => by simp at hz
  | [b], _, _, z, Z, hc, hz, hZ => by
    obtain ⟨_, T, hT, _, hrest⟩ := hc
    simp only [List.getLast?_singleton, Option.some.injEq] at hz
    subst hz; rw [hT] at hZ; cases hZ; exact hrest
  | b :: c :: l, _, _, z, Z, hc, hz, hZ => by
    obtain ⟨_, T, _, _, hrest⟩ := hc
    rw [List.getLast?_cons_cons] at hz
    exact Chain.last_next hrest hz hZ

/-- Appending at the tail (lines 311-315): the old last record gets the new
record as `next`. -/
theorem Chain.snoc {h hF : Heap} {app z : Nat} :
    ∀ {l : List Nat} {pred p : Option Nat}, Chain h pred p l → l.getLast? = some z →
      l.Nodup → app ∉ l →
      (∀ Z, h z = some Z → hF z = some { Z with next := some app }) →
      (∃ A, hF app = some A ∧ A.next = none ∧ A.prev = none) →
      (∀ b, b ≠ z → b ≠ app → hF b = h b) →
      Chain hF pred p (l ++ [app])
  | [], _, _, _, hz, _, _, _, _, _ => by simp at hz
  | [b], _, _, hc, hz, _, hna, hZ, hA, _ => by
    obtain ⟨hp, T, hT, hprev, hrest⟩ := hc
    simp only [List.getLast?_singleton, Option.some.injEq] at hz
    subst hz
    obtain ⟨A, hA1, hA2, hA3⟩ := hA
    exact ⟨hp, { T with next := some app }, hZ T hT, hprev, rfl, A, hA1, Or.inl hA3, hA2⟩
  | b :: c :: l, _, _, hc, hz, hnd, hna, hZ, hA, hfr => by
    obtain ⟨hp, T, hT, hprev, hrest⟩ := hc
    rw [List.getLast?_cons_cons] at hz
    have hnd2 := List.nodup_cons.mp hnd
    have hbz : b ≠ z := fun e => hnd2.1 (e ▸ List.mem_of_getLast?_eq_some hz)
    have hba : b ≠ app := fun e => hna (e ▸ List.mem_cons_self _ _)
    refine ⟨hp, T, by rw [hfr b hbz hba]; exact hT, hprev, ?_⟩
    exact Chain.snoc hrest hz hnd2.2 (fun hm => hna (List.mem_cons_of_mem _ hm)) hZ hA hfr

theorem lastOr_eq_some {pp : Nat} : ∀ (pre : List Nat) {pred : Option Nat},
    lastOr pred pre = some pp → pred = some pp ∧ pre = [] ∨ ∃ pre0, pre = pre0 ++ [pp]
  | [], _, h => Or.inl ⟨h, rfl⟩
  | a :: pre, _, h => by
    have h0 : lastOr (some a) pre = some pp := h
    rcases lastOr_eq_some pre h0 with ⟨h1, h2⟩ | ⟨pre0, h2⟩
    · cases h1; subst h2; exact Or.inr ⟨[], rfl⟩
    · subst h2; exact Or.inr ⟨a :: pre0, rfl⟩

/-- Insertion between two records (lines 321-326). -/
theorem Chain.insert_mid {h hF : Heap} {app pp t : Nat} {post : List Nat} :
    ∀ {pre0 : List Nat} {pred p : Option Nat}, Chain h pred p (pre0 ++ pp :: t :: post) →
      (pre0 ++ pp :: t :: post).Nodup → app ∉ pre0 ++ pp :: t :: post →
      (∀ P, h pp = some P → hF pp = some { P with next := some app }) →
      (∀ T, h t = some T → hF t = some { T with prev := some app }) →
      (∃ A, hF app = some A ∧ A.next = some t ∧ A.prev = some pp) →
      (∀ b, b ≠ pp → b ≠ t → b ≠ app → hF b = h b) →
      Chain hF pred p (pre0 ++ pp :: app :: t :: post)
  | [], _, _, hc, hnd, hna, hP, hT, hA, hfr => by
    obtain ⟨hp, P, hPh, hPprev, hrest⟩ := hc
    obtain ⟨hpn, T, hTh, _, hrest2⟩ := hrest
    obtain ⟨A, hA1, hA2, hA3⟩ := hA
    simp only [List.nil_append, List.nodup_cons, List.mem_cons, not_or] at hnd hna
    refine ⟨hp, _, hP P hPh, hPprev, rfl, A, hA1, Or.inr hA3, ?_⟩
    rw [hA2]
    refine ⟨rfl, _, hT T hTh, Or.inr rfl, ?_⟩
    refine Chain.congr ?_ hrest2
    intro b hb X hX
    have h1 : b ≠ pp := fun e => hnd.1.2 (e ▸ hb)
    have h2 : b ≠ t := fun e => hnd.2.1 (e ▸ hb)
    have h3 : b ≠ app := fun e => hna.2.2 (e ▸ hb)
    exact ⟨X, by rw [hfr b h1 h2 h3]; exact hX, rfl, Or.inl rfl⟩
  | b :: pre0, _, _, hc, hnd, hna, hP, hT, hA, hfr => by
    obtain ⟨hp, X, hX, hprev, hrest⟩ := hc
    have hnd2 := List.nodup_cons.mp hnd
    have h1 : b ≠ pp := fun e => hnd2.1 (by simp [e])
    have h2 : b ≠ t := fun e => hnd2.1 (by simp [e])
    have h3 : b ≠ app := fun e => hna (by simp [e])
    refine ⟨hp, X, by rw [hfr b h1 h2 h3]; exact hX, hprev, ?_⟩
    exact Chain.insert_mid hrest hnd2.2 (fun hm => hna (List.mem_cons_of_mem _ hm)) hP hT hA hfr

/-- Insertion as new head (lines 316-320): `first` becomes the new record, which
points to the record `t` the scan stopped at. -/
theorem Chain.insert_head {h hF : Heap} {app t : Nat} {post : List Nat} {pred p : Option Nat}
    (hc : Chain h pred p (t :: post)) (hnd : (t :: post).Nodup) (hna : app ∉ t :: post)
    (hT : ∀ T, h t = some T → hF t = some { T with prev := some app })
    (hA : ∃ A, hF app = some A ∧ A.next = some t ∧ A.prev = none)
    (hfr : ∀ b, b ≠ t → b ≠ app → hF b = h b) :
    Chain hF none (some app) (app :: t :: post) := by
  obtain ⟨_, T, hTh, _, hrest⟩ := hc
  obtain ⟨A, hA1, hA2, hA3⟩ := hA
  have hnd2 := List.nodup_cons.mp hnd
  refine ⟨rfl, A, hA1, Or.inl hA3, ?_⟩
  rw [hA2]
  refine ⟨rfl, _, hT T hTh, Or.inr rfl, ?_⟩
  refine Chain.congr ?_ hrest
  intro b hb X hX
  have h2 : b ≠ t := fun e => hnd2.1 (e ▸ hb)
  have h3 : b ≠ app := fun e => hna (List.mem_cons_of_mem _ (e ▸ hb))
  exact ⟨X, by rw [hfr b h2 h3]; exact hX, rfl, Or.inl rfl⟩

/-! ## The order of deadlines -/

theorem TV_LESS_THAN_iff (a b : Timeval) :
    TV_LESS_THAN a b = true ↔
      a.tv_sec < b.tv_sec ∨ (a.tv_sec = b.tv_sec ∧ a.tv_usec < b.tv_usec) := by
  simp [TV_LESS_THAN]

theorem TV_LESS_THAN_false_iff (a b : Timeval) :
    TV_LESS_THAN a b = false ↔
      ¬ (a.tv_sec < b.tv_sec ∨ (a.tv_sec = b.tv_sec ∧ a.tv_usec < b.tv_usec)) := by
  rw [← TV_LESS_THAN_iff]; simp

theorem TV_LESS_THAN_asymm {a b : Timeval} (h : TV_LESS_THAN a b = true) :
    TV_LESS_THAN b a = false ∧ a ≠ b := by
  rw [TV_LESS_THAN_iff] at h
  refine ⟨(TV_LESS_THAN_false_iff _ _).mpr (by omega), ?_⟩
  rintro rfl
  omega

theorem TV_LESS_THAN_between {x t y : Timeval} (h1 : TV_LESS_THAN x t = true)
    (h2 : TV_LESS_THAN y t = false) : TV_LESS_THAN y x = false ∧ x ≠ y := by
  rw [TV_LESS_THAN_iff] at h1
  rw [TV_LESS_THAN_false_iff] at h2
  refine ⟨(TV_LESS_THAN_false_iff _ _).mpr (by omega), ?_⟩
  rintro rfl
  omega

/-! ## TimerAdd keeps the invariant -/

/-- The three insertions of `TimerAdd` seen at once: the new record `s.brk` goes
between the entries `pre` the scan passed and the entries `post` it did not
reach, and `pre` is kept or dropped as a whole. -/
theorem Inv.insert {s s1 : State} {l : List Nat} (pre post : List Nat) {pre1 : List Nat}
    (hi : Inv s l)
    (hsplit : l = pre ++ post) (tv : Timeval)
    (hpre : ∀ a ∈ pre, ∀ T, s.heap a = some T → TV_LESS_THAN tv T.timeout = false)
    (hpost : ∀ t T, post.head? = some t → s.heap t = some T → TV_LESS_THAN tv T.timeout = true)
    (hpre1 : pre1 = pre ∨ pre1 = [])
    (hchain : Chain s1.heap none s1.first (pre1 ++ s.brk :: post))
    (hlast : s1.last = (pre1 ++ s.brk :: post).getLast?)
    (hbrk : s1.brk = s.brk + 1) (hcur : s1.cur_id < 4294967296)
    (hfirst : s1.first ≠ none)
    (hnew : ∃ A, s1.heap s.brk = some A ∧ A.timeout = tv ∧ A.in_use = 1)
    (hold : ∀ b, b ≠ s.brk → ∀ X, s1.heap b = some X →
      ∃ Y, s.heap b = some Y ∧ X.timeout = Y.timeout ∧ X.in_use = Y.in_use) :
    Inv s1 (pre1 ++ s.brk :: post) := by
  subst hsplit
  obtain ⟨A, hA, hAt, hAu⟩ := hnew
  have hlt := hi.mem_lt
  have hne : ∀ a ∈ pre ++ post, a ≠ s.brk := fun a ha e => by
    have := hlt a ha; omega
  have hnd := List.nodup_append.mp hi.nodup
  have hso := List.pairwise_append.mp hi.sorted
  have hnodup : (pre ++ s.brk :: post).Nodup := by
    rw [List.nodup_append]
    refine ⟨hnd.1, ?_, ?_⟩
    · rw [List.nodup_cons]
      exact ⟨fun hm => hne _ (List.mem_append_right _ hm) rfl, hnd.2.1⟩
    · intro a ha hb
      rcases List.mem_cons.mp hb with e | hm
      · exact hne a (List.mem_append_left _ ha) e
      · exact hnd.2.2 ha hm
  have hnewpost : ∀ b ∈ post, Ordered s1.heap s.brk b := by
    intro b hb A1 B hA1 hB
    rw [hA] at hA1; cases hA1
    obtain ⟨Y, hY, hYt, _⟩ := hold b (hne b (List.mem_append_right _ hb)) B hB
    rw [hYt, hAt]
    cases post with
    | nil => simp at hb
    | cons t post1 =>
      obtain ⟨Tt, hTt⟩ := hi.chain.mem_some t (by simp)
      have hlt1 := hpost t Tt rfl hTt
      rcases List.mem_cons.mp hb with e | hm
      · subst e
        rw [hTt] at hY; cases hY
        have := TV_LESS_THAN_asymm hlt1
        exact ⟨this.1, fun e => absurd e this.2⟩
      · have hord := (List.pairwise_cons.mp hso.2.1).1 b hm Tt Y hTt hY
        have := TV_LESS_THAN_between hlt1 hord.1
        exact ⟨this.1, fun e => absurd e this.2⟩
  have htrans : ∀ a ∈ pre ++ post, ∀ b ∈ pre ++ post, Ordered s.heap a b →
      Ordered s1.heap a b := by
    intro a ha b hb hab A1 B1 hA1 hB1
    obtain ⟨Ya, hYa, hta, _⟩ := hold a (hne a ha) A1 hA1
    obtain ⟨Yb, hYb, htb, _⟩ := hold b (hne b hb) B1 hB1
    rw [hta, htb]
    exact hab Ya Yb hYa hYb
  have hsorted : (pre ++ s.brk :: post).Pairwise (Ordered s1.heap) := by
    rw [List.pairwise_append]
    refine ⟨?_, ?_, ?_⟩
    · exact hso.1.imp_of_mem (fun {a b} ha hb hab =>
        htrans a (List.mem_append_left _ ha) b (List.mem_append_left _ hb) hab)
    · rw [List.pairwise_cons]
      exact ⟨hnewpost, hso.2.1.imp_of_mem (fun {a b} ha hb hab =>
        htrans a (List.mem_append_right _ ha) b (List.mem_append_right _ hb) hab)⟩
    · intro a ha b hb
      rcases List.mem_cons.mp hb with e | hm
      · subst e
        intro A1 B1 hA1 hB1
        rw [hA] at hB1; cases hB1
        obtain ⟨Y, hY, hYt, _⟩ := hold a (hne a (List.mem_append_left _ ha)) A1 hA1
        rw [hYt, hAt]
        exact ⟨hpre a ha Y hY, fun _ => hlt a (List.mem_append_left _ ha)⟩
      · exact htrans a (List.mem_append_left _ ha) b (List.mem_append_right _ hm)
          (hso.2.2 a ha b hm)
  have hsub : (pre1 ++ s.brk :: post).Sublist (pre ++ s.brk :: post) := by
    rcases hpre1 with e | e
    · rw [e]
    · rw [e]; exact List.sublist_append_right _ _
  exact
    { chain := hchain
      nodup := hnodup.sublist hsub
      fresh := fun b hb => by
        cases hX : s1.heap b with
        | none => rfl
        | some X =>
          obtain ⟨Y, hY, _⟩ := hold b (by omega) X hX
          rw [hi.fresh b (by omega)] at hY
          exact Option.noConfusion hY
      last := hlast
      inuse := fun b X hX => by
        by_cases hb : b = s.brk
        · subst hb; rw [hA] at hX; cases hX; exact hAu
        · obtain ⟨Y, hY, _, hu⟩ := hold b hb X hX
          rw [hu]; exact hi.inuse b Y hY
      sorted := hsorted.sublist hsub
      wait := fun _ => hfirst
      cur := hcur }

theorem TimerAdd_empty {s : State} {sec usec : Int} {hd : Nat} (handleArg : Option Nat)
    (now : Timeval) (hv : ¬ (sec < 0 ∨ usec < 0 ∨ (sec = 0 ∧ usec = 0)))
    (hf : s.first = none) :
    TimerAdd s sec usec (some hd) handleArg now true =
      some { ret := toInt32 s.cur_id, timerIdOut := some (toInt32 s.cur_id), signalled := true,
             state := { first := some s.brk, last := some s.brk,
                        cur_id := (s.cur_id + 1) % 4294967296,
                        heap := s.heap.store s.brk
                          (newTimer now sec usec (some hd) handleArg (toInt32 s.cur_id)),
                        brk := s.brk + 1, sigwait := s.sigwait } } := by
  simp [TimerAdd, hv, hf]

theorem TimerAdd_tail {s : State} {sec usec : Int} {hd f z : Nat} {Z : Timer}
    (handleArg : Option Nat)
    (now : Timeval) (hv : ¬ (sec < 0 ∨ usec < 0 ∨ (sec = 0 ∧ usec = 0)))
    (hf : s.first = some f)
    (hscan : addScan (s.heap.store s.brk
        (newTimer now sec usec (some hd) handleArg (toInt32 s.cur_id)))
        (addDeadline now sec usec) (s.brk + 1 + 1) (some f) = some none)
    (hl : s.last = some z) (hz : z ≠ s.brk) (hZ : s.heap z = some Z) :
    TimerAdd s sec usec (some hd) handleArg now true =
      some { ret := toInt32 s.cur_id, timerIdOut := some (toInt32 s.cur_id), signalled := false,
             state := { first := some f, last := some s.brk,
                        cur_id := (s.cur_id + 1) % 4294967296,
                        heap := ((s.heap.store s.brk
                          (newTimer now sec usec (some hd) handleArg (toInt32 s.cur_id))).store
                            s.brk { newTimer now sec usec (some hd) handleArg (toInt32 s.cur_id)
                                    with prev := Z.next }).store z { Z with next := some s.brk },
                        brk := s.brk + 1, sigwait := s.sigwait } } := by
  have e1 : (newTimer now sec usec (some hd) handleArg (toInt32 s.cur_id)).timeout =
      addDeadline now sec usec := rfl
  simp [TimerAdd, hv, hf, Heap.store_same, e1, hscan, hl, Heap.store_other _ _ hz, hZ,
    Heap.modify]

theorem TimerAdd_head {s : State} {sec usec : Int} {hd f t : Nat} {T : Timer}
    (handleArg : Option Nat)
    (now : Timeval) (hv : ¬ (sec < 0 ∨ usec < 0 ∨ (sec = 0 ∧ usec = 0)))
    (hf : s.first = some f)
    (hscan : addScan (s.heap.store s.brk
        (newTimer now sec usec (some hd) handleArg (toInt32 s.cur_id)))
        (addDeadline now sec usec) (s.brk + 1 + 1) (some f) = some (some t))
    (ht : t ≠ s.brk) (hT : s.heap t = some T) (hprev : T.prev = none) :
    TimerAdd s sec usec (some hd) handleArg now true =
      some { ret := toInt32 s.cur_id, timerIdOut := some (toInt32 s.cur_id), signalled := false,
             state := { first := some s.brk, last := s.last,
                        cur_id := (s.cur_id + 1) % 4294967296,
                        heap := ((s.heap.store s.brk
                          (newTimer now sec usec (some hd) handleArg (toInt32 s.cur_id))).store
                            t { T with prev := some s.brk }).store s.brk
                              { newTimer now sec usec (some hd) handleArg (toInt32 s.cur_id)
                                with next := some t },
                        brk := s.brk + 1, sigwait := s.sigwait } } := by
  have e1 : (newTimer now sec usec (some hd) handleArg (toInt32 s.cur_id)).timeout =
      addDeadline now sec usec := rfl
  have ht2 : s.brk ≠ t := fun e => ht e.symm
  simp [TimerAdd, hv, hf, Heap.store_same, e1, hscan, Heap.store_other _ _ ht,
    Heap.store_other _ _ ht2, hT, hprev, Heap.modify]

theorem TimerAdd_mid {s : State} {sec usec : Int} {hd f t pp : Nat} {T P : Timer}
    (handleArg : Option Nat)
    (now : Timeval) (hv : ¬ (sec < 0 ∨ usec < 0 ∨ (sec = 0 ∧ usec = 0)))
    (hf : s.first = some f)
    (hscan : addScan (s.heap.store s.brk
        (newTimer now sec usec (some hd) handleArg (toInt32 s.cur_id)))
        (addDeadline now sec usec) (s.brk + 1 + 1) (some f) = some (some t))
    (ht : t ≠ s.brk) (hT : s.heap t = some T) (hprev : T.prev = some pp)
    (hp : pp ≠ s.brk) (hpt : t ≠ pp) (hP : s.heap pp = some P) :
    TimerAdd s sec usec (some hd) handleArg now true =
      some { ret := toInt32 s.cur_id, timerIdOut := some (toInt32 s.cur_id), signalled := false,
             state := { first := some f, last := s.last,
                        cur_id := (s.cur_id + 1) % 4294967296,
                        heap := ((((s.heap.store s.brk
                          (newTimer now sec usec (some hd) handleArg (toInt32 s.cur_id))).store
                            s.brk { newTimer now sec usec (some hd) handleArg (toInt32 s.cur_id)
                                    with prev := some pp }).store
                            s.brk { newTimer now sec usec (some hd) handleArg (toInt32 s.cur_id)
                                    with prev := some pp, next := some t }).store
                            pp { P with next := some s.brk }).store
                            t { T with prev := some s.brk },
                        brk := s.brk + 1, sigwait := s.sigwait } } := by
  have e1 : (newTimer now sec usec (some hd) handleArg (toInt32 s.cur_id)).timeout =
      addDeadline now sec usec := rfl
  simp [TimerAdd, hv, hf, Heap.store_same, e1, hscan, Heap.store_other _ _ ht,
    Heap.store_other _ _ hp, Heap.store_other _ _ hpt, hT, hprev, hP, Heap.modify]

theorem SameData.rfl {X : Timer} : SameData X X := ⟨Eq.refl _, Eq.refl _, Eq.refl _, Eq.refl _, Eq.refl _, Eq.refl _⟩

theorem OldKept.base (h : Heap) (app : Nat) (A : Timer) : OldKept h (h.store app A) app := by
  intro b hb X hX
  rw [Heap.store_other _ _ hb] at hX
  exact ⟨X, hX, SameData.rfl⟩

theorem OldKept.store_app {h h1 : Heap} {app : Nat} (ho : OldKept h h1 app) (A : Timer) :
    OldKept h (h1.store app A) app := by
  intro b hb X hX
  rw [Heap.store_other _ _ hb] at hX
  exact ho b hb X hX

theorem OldKept.store_old {h h1 : Heap} {app c : Nat} (ho : OldKept h h1 app)
    (C C1 : Timer) (hc : h1 c = some C) (hd : SameData C1 C) : OldKept h (h1.store c C1) app := by
  intro b hb X hX
  by_cases hbc : b = c
  · subst hbc
    rw [Heap.store_same] at hX
    have e : X = C1 := (Option.some.inj hX).symm
    obtain ⟨Y, hY, d1, d2, d3, d4, d5, d6⟩ := ho b hb C hc
    obtain ⟨e1, e2, e3, e4, e5, e6⟩ := hd
    rw [e]
    exact ⟨Y, hY, e1.trans d1, e2.trans d2, e3.trans d3, e4.trans d4, e5.trans d5, e6.trans d6⟩
  · rw [Heap.store_other _ _ hbc] at hX
    exact ho b hb X hX

/-- A valid `TimerAdd` with a successful allocation, in a state of the
invariant: it returns, and what it returns and leaves is described by `AddOk`. -/
theorem Inv.add {s : State} {l : List Nat} (hi : Inv s l) {sec usec : Int} (hd : Nat)
    (handleArg : Option Nat) (now : Timeval)
    (hv : ¬ (sec < 0 ∨ usec < 0 ∨ (sec = 0 ∧ usec = 0))) :
    ∃ r l1, TimerAdd s sec usec (some hd) handleArg now true = some r ∧
      AddOk s l (addDeadline now sec usec) (some hd) handleArg r l1 := by
  have hne : ∀ a ∈ l, a ≠ s.brk := fun a ha e => by have := hi.mem_lt a ha; omega
  have hcur : (s.cur_id + 1) % 4294967296 < 4294967296 := Nat.mod_lt _ (by norm_num)
  have hc0 : Chain (s.heap.store s.brk
      (newTimer now sec usec (some hd) handleArg (toInt32 s.cur_id))) none s.first l :=
    Chain.congr (fun a ha T hT =>
      ⟨T, by rw [Heap.store_other _ _ (hne a ha)]; exact hT, rfl, Or.inl rfl⟩) hi.chain
  have hold0 : ∀ {hF : Heap}, OldKept s.heap hF s.brk → ∀ b, b ≠ s.brk → ∀ X, hF b = some X →
      ∃ Y, s.heap b = some Y ∧ X.timeout = Y.timeout ∧ X.in_use = Y.in_use := by
    intro hF ho b hb X hX
    obtain ⟨Y, hY, d1, d2, _⟩ := ho b hb X hX
    exact ⟨Y, hY, d1, d2⟩
  cases l with
  | nil =>
    have hf : s.first = none := hi.chain
    have hchain : Chain (s.heap.store s.brk
        (newTimer now sec usec (some hd) handleArg (toInt32 s.cur_id))) none (some s.brk)
        ([] ++ s.brk :: []) :=
      ⟨rfl, _, Heap.store_same _ _ _, Or.inl rfl, rfl⟩
    have hold := OldKept.base s.heap s.brk
      (newTimer now sec usec (some hd) handleArg (toInt32 s.cur_id))
    refine ⟨_, [] ++ s.brk :: [], TimerAdd_empty handleArg now hv hf, ?_⟩
    exact
      { inv := Inv.insert ([]) ([]) hi rfl (addDeadline now sec usec)
          (by simp) (by simp) (Or.inl rfl) hchain rfl rfl hcur (by simp)
          ⟨_, Heap.store_same _ _ _, rfl, rfl⟩ (hold0 hold)
        split := ⟨[], [], rfl, Or.inl rfl, by simp, by simp⟩
        ret := rfl
        out := rfl
        cur := rfl
        brk := rfl
        wait := rfl
        new := ⟨_, Heap.store_same _ _ _, rfl, rfl, rfl, rfl, rfl⟩
        old := hold }
  | cons f l0 =>
    have hf : s.first = some f := hi.chain.1
    have hlen : (f :: l0).length < s.brk + 1 + 1 := by have := hi.length_lt; omega
    obtain ⟨pre, post, hsplit, hpre, hscan, hpost, hch⟩ :=
      addScan_chain (addDeadline now sec usec) hc0 hlen
    rw [hf] at hscan
    have hpre2 : ∀ a ∈ pre, ∀ T, s.heap a = some T →
        TV_LESS_THAN (addDeadline now sec usec) T.timeout = false := by
      intro a ha T hT
      refine hpre a ha T ?_
      rw [Heap.store_other _ _ (hne a (by rw [hsplit]; exact List.mem_append_left _ ha))]
      exact hT
    have hpost2 : ∀ t T, post.head? = some t → s.heap t = some T →
        TV_LESS_THAN (addDeadline now sec usec) T.timeout = true := by
      intro t T ht hT
      refine hpost t T ht ?_
      have hm : t ∈ post := List.mem_of_mem_head? ht
      rw [Heap.store_other _ _ (hne t (by rw [hsplit]; exact List.mem_append_right _ hm))]
      exact hT
    cases post with
    | nil =>
      rw [List.append_nil] at hsplit
      subst hsplit
      obtain ⟨z, hz⟩ : ∃ z, (f :: l0).getLast? = some z := by
        cases hz : (f :: l0).getLast? with
        | none => simp at hz
        | some z => exact ⟨z, rfl⟩
      have hzm : z ∈ f :: l0 := List.mem_of_getLast?_eq_some hz
      obtain ⟨Z, hZ⟩ := hi.chain.mem_some z hzm
      have hZn : Z.next = none := hi.chain.last_next hz hZ
      have hzb : z ≠ s.brk := hne z hzm
      have hres := TimerAdd_tail handleArg now hv hf hscan (hi.last.trans hz) hzb hZ
      have hold : OldKept s.heap
          (((s.heap.store s.brk
            (newTimer now sec usec (some hd) handleArg (toInt32 s.cur_id))).store s.brk
              { newTimer now sec usec (some hd) handleArg (toInt32 s.cur_id)
                with prev := Z.next }).store z { Z with next := some s.brk }) s.brk :=
        ((OldKept.base s.heap s.brk (newTimer now sec usec (some hd) handleArg (toInt32 s.cur_id))).store_app
          { newTimer now sec usec (some hd) handleArg (toInt32 s.cur_id)
            with prev := Z.next }).store_old Z { Z with next := some s.brk }
          (by rw [Heap.store_other _ _ hzb, Heap.store_other _ _ hzb]; exact hZ)
          ⟨rfl, rfl, rfl, rfl, rfl, rfl⟩
      have happ : (((s.heap.store s.brk
            (newTimer now sec usec (some hd) handleArg (toInt32 s.cur_id))).store s.brk
              { newTimer now sec usec (some hd) handleArg (toInt32 s.cur_id)
                with prev := Z.next }).store z { Z with next := some s.brk }) s.brk =
          some { newTimer now sec usec (some hd) handleArg (toInt32 s.cur_id)
                 with prev := Z.next } := by
        rw [Heap.store_other _ _ hzb.symm, Heap.store_same]
      have hchain : Chain (((s.heap.store s.brk
            (newTimer now sec usec (some hd) handleArg (toInt32 s.cur_id))).store s.brk
              { newTimer now sec usec (some hd) handleArg (toInt32 s.cur_id)
                with prev := Z.next }).store z { Z with next := some s.brk }) none (some f)
          ((f :: l0) ++ s.brk :: []) := by
        have := hi.chain
        rw [hf] at this
        refine Chain.snoc this hz hi.nodup (fun hm => hne _ hm rfl) ?_ ⟨_, happ, rfl, hZn⟩ ?_
        · intro Z1 hZ1
          rw [hZ] at hZ1
          have e : Z1 = Z := (Option.some.inj hZ1).symm
          rw [e, Heap.store_same]
        · intro b hb1 hb2
          rw [Heap.store_other _ _ hb1, Heap.store_other _ _ hb2, Heap.store_other _ _ hb2]
      refine ⟨_, (f :: l0) ++ s.brk :: [], hres, ?_⟩
      exact
        { inv := Inv.insert (f :: l0) ([]) hi (by simp)
            (addDeadline now sec usec) hpre2 (by simp) (Or.inl rfl) hchain
            (List.getLast?_concat (f :: l0)).symm rfl hcur (by simp)
            ⟨_, happ, rfl, rfl⟩ (hold0 hold)
          split := ⟨f :: l0, [], by simp, Or.inl rfl, hpre2, by simp⟩
          ret := rfl
          out := rfl
          cur := rfl
          brk := rfl
          wait := rfl
          new := ⟨_, happ, rfl, rfl, rfl, rfl, rfl⟩
          old := hold }
    | cons t post1 =>
      have hscan : addScan (s.heap.store s.brk
          (newTimer now sec usec (some hd) handleArg (toInt32 s.cur_id)))
          (addDeadline now sec usec) (s.brk + 1 + 1) (some f) = some (some t) := hscan
      have htm : t ∈ f :: l0 := by rw [hsplit]; simp
      obtain ⟨T, hT⟩ := hi.chain.mem_some t htm
      have htb : t ≠ s.brk := hne t htm
      have hnd := hi.nodup
      rw [hsplit] at hnd
      have hnd2 := List.nodup_append.mp hnd
      have hprevT : T.prev = none ∨ T.prev = lastOr none pre := by
        obtain ⟨_, T2, hT2, hp2, _⟩ := hch
        rw [Heap.store_other _ _ htb, hT] at hT2
        have e : T2 = T := (Option.some.inj hT2).symm
        rw [e] at hp2; exact hp2
      have hlast : s.last = (t :: post1).getLast? := by
        rw [hi.last, hsplit]
        exact List.getLast?_append_of_ne_nil pre (List.cons_ne_nil t post1)
      cases hprev : T.prev with
      | none =>
        have hres := TimerAdd_head handleArg now hv hf hscan htb hT hprev
        have hold : OldKept s.heap
            (((s.heap.store s.brk
              (newTimer now sec usec (some hd) handleArg (toInt32 s.cur_id))).store
                t { T with prev := some s.brk }).store s.brk
                  { newTimer now sec usec (some hd) handleArg (toInt32 s.cur_id)
                    with next := some t }) s.brk :=
          ((OldKept.base s.heap s.brk (newTimer now sec usec (some hd) handleArg (toInt32 s.cur_id))).store_old T { T with prev := some s.brk }
            (by rw [Heap.store_other _ _ htb]; exact hT) ⟨rfl, rfl, rfl, rfl, rfl, rfl⟩).store_app
            { newTimer now sec usec (some hd) handleArg (toInt32 s.cur_id) with next := some t }
        have hchain : Chain (((s.heap.store s.brk
              (newTimer now sec usec (some hd) handleArg (toInt32 s.cur_id))).store
                t { T with prev := some s.brk }).store s.brk
                  { newTimer now sec usec (some hd) handleArg (toInt32 s.cur_id)
                    with next := some t }) none (some s.brk) ([] ++ s.brk :: t :: post1) := by
          refine Chain.insert_head hch hnd2.2.1
            (fun hm => hne _ (by rw [hsplit]; exact List.mem_append_right _ hm) rfl) ?_
            ⟨_, Heap.store_same _ _ _, rfl, rfl⟩ ?_
          · intro T1 hT1
            rw [Heap.store_other _ _ htb, hT] at hT1
            have e : T1 = T := (Option.some.inj hT1).symm
            rw [e, Heap.store_other _ _ htb, Heap.store_same]
          · intro b hb1 hb2
            rw [Heap.store_other _ _ hb2, Heap.store_other _ _ hb1]
        refine ⟨_, [] ++ s.brk :: t :: post1, hres, ?_⟩
        exact
          { inv := Inv.insert (pre) (t :: post1) hi hsplit
              (addDeadline now sec usec) hpre2 hpost2 (Or.inr rfl) hchain
              (by rw [show ([] ++ s.brk :: t :: post1) = s.brk :: t :: post1 from rfl,
                    List.getLast?_cons_cons]; exact hlast) rfl hcur (by simp)
              ⟨_, Heap.store_same _ _ _, rfl, rfl⟩ (hold0 hold)
            split := ⟨pre, t :: post1, hsplit, Or.inr rfl, hpre2, hpost2⟩
            ret := rfl
            out := rfl
            cur := rfl
            brk := rfl
            wait := rfl
            new := ⟨_, Heap.store_same _ _ _, rfl, rfl, rfl, rfl, rfl⟩
            old := hold }
      | some pp =>
        have hlo : lastOr none pre = some pp := by
          rcases hprevT with e | e
          · rw [hprev] at e; exact Option.noConfusion e
          · rw [← e, hprev]
        obtain ⟨pre0, hpre0⟩ : ∃ pre0, pre = pre0 ++ [pp] := by
          rcases lastOr_eq_some _ hlo with ⟨e, _⟩ | h
          · exact Option.noConfusion e
          · exact h
        subst hpre0
        have hl : f :: l0 = pre0 ++ pp :: t :: post1 := by rw [hsplit]; simp
        have hppm : pp ∈ f :: l0 := by rw [hl]; simp
        obtain ⟨P, hP⟩ := hi.chain.mem_some pp hppm
        have hpb : pp ≠ s.brk := hne pp hppm
        have hnd3 : (pre0 ++ pp :: t :: post1).Nodup := by rw [← hl]; exact hi.nodup
        have htp : t ≠ pp := by
          intro e
          have := (List.nodup_append.mp hnd3).2.1
          rw [List.nodup_cons] at this
          exact this.1 (by simp [e])
        have hres := TimerAdd_mid handleArg now hv hf hscan htb hT hprev hpb htp hP
        have hold : OldKept s.heap
            (((((s.heap.store s.brk
              (newTimer now sec usec (some hd) handleArg (toInt32 s.cur_id))).store
                s.brk { newTimer now sec usec (some hd) handleArg (toInt32 s.cur_id)
                        with prev := some pp }).store
                s.brk { newTimer now sec usec (some hd) handleArg (toInt32 s.cur_id)
                        with prev := some pp, next := some t }).store
                pp { P with next := some s.brk }).store
                t { T with prev := some s.brk }) s.brk :=
          ((((OldKept.base s.heap s.brk (newTimer now sec usec (some hd) handleArg (toInt32 s.cur_id))).store_app
            { newTimer now sec usec (some hd) handleArg (toInt32 s.cur_id)
              with prev := some pp }).store_app
            { newTimer now sec usec (some hd) handleArg (toInt32 s.cur_id)
              with prev := some pp, next := some t }).store_old P { P with next := some s.brk }
            (by rw [Heap.store_other _ _ hpb, Heap.store_other _ _ hpb,
                  Heap.store_other _ _ hpb]; exact hP) ⟨rfl, rfl, rfl, rfl, rfl, rfl⟩).store_old T
            { T with prev := some s.brk }
            (by rw [Heap.store_other _ _ htp, Heap.store_other _ _ htb,
                  Heap.store_other _ _ htb, Heap.store_other _ _ htb]; exact hT)
            ⟨rfl, rfl, rfl, rfl, rfl, rfl⟩
        have happ : (((((s.heap.store s.brk
              (newTimer now sec usec (some hd) handleArg (toInt32 s.cur_id))).store
                s.brk { newTimer now sec usec (some hd) handleArg (toInt32 s.cur_id)
                        with prev := some pp }).store
                s.brk { newTimer now sec usec (some hd) handleArg (toInt32 s.cur_id)
                        with prev := some pp, next := some t }).store
                pp { P with next := some s.brk }).store
                t { T with prev := some s.brk }) s.brk =
            some { newTimer now sec usec (some hd) handleArg (toInt32 s.cur_id)
                   with prev := some pp, next := some t } := by
          rw [Heap.store_other _ _ htb.symm, Heap.store_other _ _ hpb.symm, Heap.store_same]
        have hchain : Chain (((((s.heap.store s.brk
              (newTimer now sec usec (some hd) handleArg (toInt32 s.cur_id))).store
                s.brk { newTimer now sec usec (some hd) handleArg (toInt32 s.cur_id)
                        with prev := some pp }).store
                s.brk { newTimer now sec usec (some hd) handleArg (toInt32 s.cur_id)
                        with prev := some pp, next := some t }).store
                pp { P with next := some s.brk }).store
                t { T with prev := some s.brk }) none (some f)
            (pre0 ++ pp :: s.brk :: t :: post1) := by
          have hc1 := hc0
          rw [hf, hl] at hc1
          refine Chain.insert_mid hc1 hnd3 (fun hm => hne _ (by rw [hl]; exact hm) rfl) ?_ ?_
            ⟨_, happ, rfl, rfl⟩ ?_
          · intro P1 hP1
            rw [Heap.store_other _ _ hpb, hP] at hP1
            have e : P1 = P := (Option.some.inj hP1).symm
            rw [e, Heap.store_other _ _ htp.symm, Heap.store_same]
          · intro T1 hT1
            rw [Heap.store_other _ _ htb, hT] at hT1
            have e : T1 = T := (Option.some.inj hT1).symm
            rw [e, Heap.store_same]
          · intro b hb1 hb2 hb3
            rw [Heap.store_other _ _ hb2, Heap.store_other _ _ hb1, Heap.store_other _ _ hb3,
              Heap.store_other _ _ hb3]
        have hlist : pre0 ++ pp :: s.brk :: t :: post1 = (pre0 ++ [pp]) ++ s.brk :: t :: post1 := by
          simp
        rw [hlist] at hchain
        refine ⟨_, (pre0 ++ [pp]) ++ s.brk :: t :: post1, hres, ?_⟩
        exact
          { inv := Inv.insert (pre0 ++ [pp]) (t :: post1) hi hsplit
              (addDeadline now sec usec) hpre2 hpost2 (Or.inl rfl) hchain
              (by
                rw [hlast, show s.brk :: t :: post1 = [s.brk] ++ t :: post1 from rfl,
                  ← List.append_assoc]
                exact (List.getLast?_append_of_ne_nil _ (List.cons_ne_nil t post1)).symm)
              rfl hcur
              (by simp [hf]) ⟨_, happ, rfl, rfl⟩ (hold0 hold)
            split := ⟨pre0 ++ [pp], t :: post1, hsplit, Or.inl rfl, hpre2, hpost2⟩
            ret := rfl
            out := rfl
            cur := rfl
            brk := rfl
            wait := rfl
            new := ⟨_, happ, rfl, rfl, rfl, rfl, rfl⟩
            old := hold }

/-! ## Steps and executions -/

/-- The failure paths of `TimerAdd` (lines 267-279): every one returns -1,
writes nothing through `timerId` and leaves the state as it is. -/
theorem TimerAdd_fail (s : State) (sec usec : Int) (handle handleArg : Option Nat)
    (now : Timeval) (mallocOk : Bool)
    (h : invalidArgs sec usec handle ∨ mallocOk = false) :
    TimerAdd s sec usec handle handleArg now mallocOk =
      some { ret := -1, timerIdOut := none, signalled := false, state := s } := by
  unfold TimerAdd
  by_cases h1 : handle = none
  · simp [h1]
  · by_cases h2 : sec < 0 ∨ usec < 0 ∨ (sec = 0 ∧ usec = 0)
    · simp [h1, h2]
    · have h3 : mallocOk = false := by
        rcases h with h | h
        · rcases h with h | h
          · exact absurd h h1
          · exact absurd h h2
        · exact h
      simp [h1, h2, h3]

theorem Inv.step_ok {s : State} {l : List Nat} (hi : Inv s l) {op : Op} {r : State × List Event}
    (h : step s op = some r) : ∃ l1, StepOk s l r l1 := by
  cases op with
  | add sec usec handle handleArg now mallocOk =>
    by_cases hf : invalidArgs sec usec handle ∨ mallocOk = false
    · have hres := TimerAdd_fail s sec usec handle handleArg now mallocOk hf
      simp only [step, hres, Option.some.injEq] at h
      subst h
      exact ⟨l,
        { inv := hi
          ids := Or.inr ⟨rfl, rfl⟩
          brk := Nat.le_refl _
          kept := fun x T1 _ hx => ⟨T1, hx, rfl, rfl, rfl, Or.inl rfl⟩
          called := fun x hx => by simp [addEvents, invoked] at hx
          mem := fun x hx => Or.inl hx
          sync := Or.inr ⟨rfl, rfl⟩
          newid := fun T hlt _ => absurd hlt (Nat.lt_irrefl _) }⟩
    · have hv : ¬ (sec < 0 ∨ usec < 0 ∨ (sec = 0 ∧ usec = 0)) :=
        fun hc => hf (Or.inl (Or.inr hc))
      have hok : mallocOk = true := by
        cases mallocOk with
        | true => rfl
        | false => exact absurd (Or.inr rfl) hf
      obtain ⟨hd, hhd⟩ : ∃ hd, handle = some hd := by
        cases handle with
        | none => exact absurd (Or.inl (Or.inl rfl)) hf
        | some hd => exact ⟨hd, rfl⟩
      subst hhd; subst hok
      obtain ⟨ra, l1, hres, hok⟩ := hi.add hd handleArg now hv
      simp only [step, hres, Option.some.injEq] at h
      subst h
      refine ⟨l1,
        { inv := hok.inv
          ids := Or.inl ⟨?_, hok.cur⟩
          brk := by show s.brk ≤ ra.state.brk; rw [hok.brk]; exact Nat.le_succ _
          kept := ?_
          called := ?_
          mem := ?_
          sync := Or.inl ⟨hok.brk, hok.cur⟩
          newid := fun T _ hT => by
            obtain ⟨A, hA, _, _, _, hAi, _⟩ := hok.new
            have hT : ra.state.heap s.brk = some T := hT
            rw [hA] at hT
            rw [← Option.some.inj hT]; exact hAi }⟩
      · show idsOf (addEvents ra) = _
        unfold addEvents
        rw [hok.out, hok.ret]
        cases ra.signalled <;> rfl
      · intro x T1 hx hT1
        obtain ⟨Y, hY, d1, _, d3, d4, d5, _⟩ := hok.old x (Nat.ne_of_lt hx) T1 hT1
        exact ⟨Y, hY, d1, d3, d4, Or.inl d5⟩
      · intro x hx
        have : invoked (addEvents ra) = [] := by
          unfold addEvents
          cases ra.signalled <;> rfl
        rw [show invoked (ra.state, addEvents ra).2 = invoked (addEvents ra) from rfl, this] at hx
        simp at hx
      · intro x hx
        obtain ⟨pre, post, hsplit, hl1, _, _⟩ := hok.split
        have hb : s.brk < ra.state.brk := by rw [hok.brk]; exact Nat.lt_succ_self _
        rcases hl1 with e | e
        · rw [e] at hx
          rcases List.mem_append.mp hx with hm | hm
          · exact Or.inl (by rw [hsplit]; exact List.mem_append_left _ hm)
          · rcases List.mem_cons.mp hm with e2 | hm2
            · exact Or.inr ⟨e2, hb⟩
            · exact Or.inl (by rw [hsplit]; exact List.mem_append_right _ hm2)
        · rw [e] at hx
          rcases List.mem_cons.mp hx with e2 | hm2
          · exact Or.inr ⟨e2, hb⟩
          · exact Or.inl (by rw [hsplit]; exact List.mem_append_right _ hm2)
  | remove timerId free_arg =>
    obtain ⟨s1, ev, hres, hinv, hcur, hbrk, _, _, hinvk, hids, hkept, _, _⟩ :=
      hi.remove timerId free_arg
    simp only [step, hres, Option.some.injEq] at h
    subst h
    exact ⟨l,
      { inv := hinv
        ids := Or.inr ⟨hids, hcur⟩
        brk := Nat.le_of_eq hbrk.symm
        kept := fun x T1 _ hx => hkept x T1 hx
        called := fun x hx => by
          rw [show invoked (s1, ev).2 = invoked ev from rfl, hinvk] at hx; simp at hx
        mem := fun x hx => Or.inl hx
        sync := Or.inr ⟨hbrk, hcur⟩
        newid := fun T hlt _ => by
          have hlt : s.brk < s1.brk := hlt
          rw [hbrk] at hlt
          exact absurd hlt (Nat.lt_irrefl _) }⟩
  | arm now =>
    by_cases hw : s.sigwait = true
    · simp [step, cronometerArm, hw] at h
    · have hw : s.sigwait = false := by simpa using hw
      cases l with
      | nil =>
        have hf : s.first = none := hi.chain
        simp [step, cronometerArm, hw, hf] at h
      | cons a rest =>
        obtain ⟨hfirst, T, hT, _, _⟩ := hi.chain
        have hres := cronometerArm_eq hi now hw hfirst hT
        simp only [step, hres, Option.some.injEq] at h
        subst h
        exact ⟨a :: rest,
          { inv := hi.arm (by rw [hfirst]; simp)
            ids := Or.inr ⟨rfl, rfl⟩
            brk := Nat.le_refl _
            kept := fun x T1 _ hx => ⟨T1, hx, rfl, rfl, rfl, Or.inl rfl⟩
            called := fun x hx => by simp [invoked] at hx
            mem := fun x hx => Or.inl hx
            sync := Or.inr ⟨rfl, rfl⟩
            newid := fun T hlt _ => absurd hlt (Nat.lt_irrefl _) }⟩
  | wake =>
    by_cases hw : s.sigwait = true
    · cases l with
      | nil =>
        have hf : s.first = none := hi.chain
        exact absurd hf (hi.wait hw)
      | cons a rest =>
        obtain ⟨s1, T, hT, hd, hres⟩ := cronometerWake_eq hi hw
        obtain ⟨s2, hd2, hinv, hcur, hbrk, _, hkept⟩ := hi.dequeue_head
        rw [hd] at hd2
        have e : s2 = s1 := (Option.some.inj hd2).symm
        subst e
        simp only [step, hres, Option.some.injEq] at h
        subst h
        refine ⟨rest,
          { inv := hinv
            ids := Or.inr ⟨?_, hcur⟩
            brk := Nat.le_of_eq hbrk.symm
            kept := fun x T1 _ hx => by
              obtain ⟨Y, hY, d1, d2, d3, d4⟩ := hkept x T1 hx
              exact ⟨Y, hY, d1, d2, d4, Or.inl d3⟩
            called := ?_
            mem := fun x hx => Or.inl (List.mem_cons_of_mem _ hx)
            sync := Or.inr ⟨hbrk, hcur⟩
            newid := fun T hlt _ => by
              have hlt : s.brk < s2.brk := hlt
              rw [hbrk] at hlt
              exact absurd hlt (Nat.lt_irrefl _) }⟩
        · show idsOf (if T.cancelled = 1 then [] else [Event.invoke a T.handler T.handler_arg]) = []
          split <;> rfl
        · intro x hx
          have hx : x ∈ invoked (if T.cancelled = 1 then []
              else [Event.invoke a T.handler T.handler_arg]) := hx
          by_cases hc : T.cancelled = 1
          · rw [if_pos hc] at hx; simp [invoked] at hx
          · rw [if_neg hc] at hx
            simp only [invoked, List.mem_singleton] at hx
            subst hx
            exact ⟨rfl, T, hT, hc⟩
    · have hw : s.sigwait = false := by simpa using hw
      simp [step, cronometerWake, hw] at h

theorem run_cons_some {s : State} {op : Op} {ops : List Op} {r : State × List Event}
    (h : run s (op :: ops) = some r) :
    ∃ r1 r2, step s op = some r1 ∧ run r1.1 ops = some r2 ∧ r = (r2.1, r1.2 ++ r2.2) := by
  unfold run at h
  cases h1 : step s op with
  | none => rw [h1] at h; exact Option.noConfusion h
  | some r1 =>
    rw [h1] at h
    dsimp only at h
    cases h2 : run r1.1 ops with
    | none => rw [h2] at h; exact Option.noConfusion h
    | some r2 =>
      rw [h2] at h
      exact ⟨r1, r2, rfl, h2, (Option.some.inj h).symm⟩

theorem run_append {s : State} {r1 r2 : State × List Event} :
    ∀ {ops1 ops2 : List Op}, run s ops1 = some r1 → run r1.1 ops2 = some r2 →
      run s (ops1 ++ ops2) = some (r2.1, r1.2 ++ r2.2) := by
  intro ops1
  induction ops1 generalizing s r1 with
  | nil =>
    intro ops2 h1 h2
    have e : r1 = (s, []) := by
      have : run s [] = some (s, []) := rfl
      rw [this] at h1; exact (Option.some.inj h1).symm
    subst e
    simpa using h2
  | cons op ops ih =>
    intro ops2 h1 h2
    obtain ⟨q1, q2, hs, hr, e⟩ := run_cons_some h1
    subst e
    have := ih hr h2
    show run s (op :: (ops ++ ops2)) = _
    unfold run
    rw [hs]
    simp only [this, List.append_assoc]

theorem idsOf_append : ∀ (e1 e2 : List Event), idsOf (e1 ++ e2) = idsOf e1 ++ idsOf e2
  | [], _ => rfl
  | e :: e1, e2 => by
    cases e with
    | added ret out =>
      cases out with
      | none => exact idsOf_append e1 e2
      | some id => exact congrArg (List.cons id) (idsOf_append e1 e2)
    | signal => exact idsOf_append e1 e2
    | cleanup f a => exact idsOf_append e1 e2
    | armed v => exact idsOf_append e1 e2
    | invoke t h a => exact idsOf_append e1 e2

theorem invoked_append : ∀ (e1 e2 : List Event), invoked (e1 ++ e2) = invoked e1 ++ invoked e2
  | [], _ => rfl
  | e :: e1, e2 => by
    cases e with
    | added ret out => exact invoked_append e1 e2
    | signal => exact invoked_append e1 e2
    | cleanup f a => exact invoked_append e1 e2
    | armed v => exact invoked_append e1 e2
    | invoke t h a => exact congrArg (List.cons t) (invoked_append e1 e2)

/-- Every state an execution reaches from a state of the invariant satisfies
the invariant. -/
theorem Inv.run_ok : ∀ (ops : List Op) {s : State} {l : List Nat} {r : State × List Event},
    Inv s l → run s ops = some r → ∃ l1, Inv r.1 l1
  | [], s, l, r, hi, h => by
    have e : r = (s, []) := (Option.some.inj h).symm
    subst e
    exact ⟨l, hi⟩
  | op :: ops, s, l, r, hi, h => by
    obtain ⟨r1, r2, hs, hr, e⟩ := run_cons_some h
    subst e
    obtain ⟨l1, hok⟩ := hi.step_ok hs
    have := Inv.run_ok ops hok.inv hr
    exact this

theorem Inv.notBefore {s : State} {l : List Nat} (hi : Inv s l) :
    l.Pairwise (NotBefore s) := by
  refine hi.sorted.imp_of_mem ?_
  intro a b ha hb hab
  obtain ⟨A, hA⟩ := hi.chain.mem_some a ha
  obtain ⟨B, hB⟩ := hi.chain.mem_some b hb
  exact ⟨A, B, hA, hB, (hab A B hA hB).1⟩

/-- When the walk from `p` ends and meets no record with the id, the lookup
loop of `TimerRemove` ends at `NULL`. -/
theorem removeScan_walk {h : Heap} (id : Int) :
    ∀ (fuel : Nat) (p : Option Nat) (l : List Nat), walk h fuel p = some l →
      (∀ a ∈ l, (h a).map Timer.timerId ≠ some id) → removeScan h id fuel p = some none
  | 0, _, _, hw, _ => by simp [walk] at hw
  | fuel + 1, none, _, _, _ => rfl
  | fuel + 1, some a, l, hw, hno => by
    cases hT : h a with
    | none => simp [walk, hT] at hw
    | some T =>
      cases hrec : walk h fuel T.next with
      | none => simp [walk, hT, hrec] at hw
      | some l0 =>
        simp only [walk, hT, hrec, Option.some.injEq] at hw
        subst hw
        have hne : T.timerId ≠ id := by
          have := hno a (List.mem_cons_self _ _)
          rw [hT] at this
          intro e; exact this (by simp [e])
        simp only [removeScan, hT, if_neg hne]
        exact removeScan_walk id fuel T.next l0 hrec
          (fun b hb => hno b (List.mem_cons_of_mem _ hb))

/-- In a state of the invariant two queue entries with the same deadline stand
in the order of their creation. -/
theorem Inv.fifo {s : State} {l : List Nat} (hi : Inv s l) :
    l.Pairwise (fun a b => s.deadline a = s.deadline b → a < b) := by
  refine hi.sorted.imp_of_mem ?_
  intro a b ha hb hab he
  obtain ⟨A, hA⟩ := hi.chain.mem_some a ha
  obtain ⟨B, hB⟩ := hi.chain.mem_some b hb
  refine (hab A B hA hB).2 ?_
  simpa [State.deadline, hA, hB] using he

/-- After a successful `TimerAdd` no entry behind the new timer has its deadline. -/
theorem AddOk.behind {s : State} {l l1 : List Nat} {tv : Timeval} {handle handleArg : Option Nat}
    {r : AddResult} (hi : Inv s l) (hok : AddOk s l tv handle handleArg r l1) :
    ∃ pre post, l1 = pre ++ s.brk :: post ∧
      ∀ b ∈ post, r.state.deadline b ≠ r.state.deadline s.brk := by
  obtain ⟨pre, post, hsplit, hl1, _, _⟩ := hok.split
  have key : ∀ pre1, l1 = pre1 ++ s.brk :: post →
      ∀ b ∈ post, r.state.deadline b ≠ r.state.deadline s.brk := by
    intro pre1 e b hb he
    have hso := hok.inv.fifo
    rw [e] at hso
    have h1 := (List.pairwise_cons.mp (List.pairwise_append.mp hso).2.1).1 b hb he.symm
    have h2 := hi.mem_lt b (by rw [hsplit]; exact List.mem_append_right _ hb)
    omega
  rcases hl1 with e | e
  · exact ⟨pre, post, e, key pre e⟩
  · exact ⟨[], post, e, key [] e⟩

/-! ## Ids -/

theorem toInt32_shift (c k : Nat) :
    toInt32 ((c + 1) % 4294967296 + k) = toInt32 (c + (k + 1)) := by
  have e : ((c + 1) % 4294967296 + k) % 4294967296 = (c + (k + 1)) % 4294967296 := by omega
  simp only [toInt32, e]

theorem toInt32_small {n : Nat} (h : n < 2147483648) : toInt32 n = (n : Int) := by
  have e : n % 4294967296 = n := Nat.mod_eq_of_lt (by omega)
  simp only [toInt32, e, if_pos h]

theorem toInt32_inj {i j : Nat} (hi : i < 4294967296) (hj : j < 4294967296)
    (h : toInt32 i = toInt32 j) : i = j := by
  have ei : i % 4294967296 = i := Nat.mod_eq_of_lt hi
  have ej : j % 4294967296 = j := Nat.mod_eq_of_lt hj
  simp only [toInt32, ei, ej] at h
  split at h <;> split at h <;> omega

/-- The successful `TimerAdd` calls of an execution return the successive
values of the counter, converted to `int`. -/
theorem Inv.ids_run : ∀ (ops : List Op) {s : State} {l : List Nat} {r : State × List Event},
    Inv s l → run s ops = some r →
      ∀ k v, (idsOf r.2)[k]? = some v → v = toInt32 (s.cur_id + k)
  | [], s, l, r, _, h, k, v, hk => by
    have e : r = (s, []) := (Option.some.inj h).symm
    subst e
    simp [idsOf] at hk
  | op :: ops, s, l, r, hi, h, k, v, hk => by
    obtain ⟨r1, r2, hs, hr, e⟩ := run_cons_some h
    subst e
    obtain ⟨l1, hok⟩ := hi.step_ok hs
    have ih := Inv.ids_run ops hok.inv hr
    rw [show idsOf (r2.1, r1.2 ++ r2.2).2 = idsOf r1.2 ++ idsOf r2.2 from idsOf_append _ _] at hk
    rcases hok.ids with ⟨e1, e2⟩ | ⟨e1, e2⟩
    · rw [e1] at hk
      cases k with
      | zero =>
        simp only [List.singleton_append, List.getElem?_cons_zero, Option.some.injEq] at hk
        rw [← hk]; rfl
      | succ k =>
        simp only [List.singleton_append, List.getElem?_cons_succ] at hk
        rw [ih k v hk, e2]
        exact toInt32_shift _ _
    · rw [e1] at hk
      simp only [List.nil_append] at hk
      rw [ih k v hk, e2]

theorem AddOk.events {s : State} {l l1 : List Nat} {tv : Timeval} {handle handleArg : Option Nat}
    {r : AddResult} (hok : AddOk s l tv handle handleArg r l1) :
    idsOf (addEvents r) = [toInt32 s.cur_id] ∧ invoked (addEvents r) = [] := by
  unfold addEvents
  rw [hok.out, hok.ret]
  cases r.signalled <;> exact ⟨rfl, rfl⟩

/-- The dispatcher arms the head of a non-empty queue and wakes up: the head
leaves the queue, and its handler is called unless it is cancelled. -/
theorem Inv.arm_wake {s : State} {a : Nat} {rest : List Nat} (hi : Inv s (a :: rest))
    (hw : s.sigwait = false) (now : Timeval) :
    ∃ r T, run s [Op.arm now, Op.wake] = some r ∧ Inv r.1 rest ∧ r.1.sigwait = false ∧
      r.1.cur_id = s.cur_id ∧ r.1.brk = s.brk ∧ s.heap a = some T ∧ idsOf r.2 = [] ∧
      invoked r.2 = (if T.cancelled = 1 then [] else [a]) ∧
      (∀ x T1, r.1.heap x = some T1 → ∃ T0, s.heap x = some T0 ∧ T1.timeout = T0.timeout ∧
        T1.timerId = T0.timerId ∧ T1.cancelled = T0.cancelled) := by
  obtain ⟨hfirst, T, hT, _, _⟩ := hi.chain
  have harm := cronometerArm_eq hi now hw hfirst hT
  have hi2 : Inv { s with sigwait := true } (a :: rest) := hi.arm (by rw [hfirst]; simp)
  obtain ⟨s1, T2, hT2, hd, hwake⟩ := cronometerWake_eq hi2 rfl
  obtain ⟨s2, hd2, hinv, hcur, hbrk, _, hkept⟩ := hi2.dequeue_head
  rw [hd] at hd2
  have e : s2 = s1 := (Option.some.inj hd2).symm
  subst e
  have eT : T2 = T := by
    have : s.heap a = some T2 := hT2
    rw [hT] at this; exact (Option.some.inj this).symm
  subst eT
  have hrun : run s [Op.arm now, Op.wake] =
      some (({ s2 with sigwait := false } : State),
        [Event.armed (if TV_LESS_THAN now T2.timeout then TV_MINUS T2.timeout now
          else { tv_sec := 0, tv_usec := ALMOST_NOW })] ++
        ((if T2.cancelled = 1 then [] else [Event.invoke a T2.handler T2.handler_arg]) ++
          [])) := by
    simp only [run, step, harm, hwake]
  refine ⟨_, T2, hrun, hinv, rfl, hcur, hbrk, hT, ?_, ?_, ?_⟩
  · by_cases hc : T2.cancelled = 1
    · simp [hc, idsOf]
    · simp [hc, idsOf]
  · by_cases hc : T2.cancelled = 1
    · simp [hc, invoked]
    · simp [hc, invoked]
  · intro x T1 hx
    obtain ⟨Y, hY, d1, d2, d3, _⟩ := hkept x T1 hx
    exact ⟨Y, hY, d1, d2, d3⟩

/-- One round from the empty queue ends with the empty queue and has one
successful `TimerAdd`. -/
theorem Inv.round_ok {s : State} (hi : Inv s []) (hw : s.sigwait = false) (k : Nat) :
    ∃ r, run s (roundAt k) = some r ∧ Inv r.1 [] ∧ r.1.sigwait = false ∧
      (idsOf r.2).length = 1 := by
  obtain ⟨ra, l1, hres, hok⟩ := hi.add 1 none (tick k)
    (by decide : ¬ ((0 : Int) < 0 ∨ (1 : Int) < 0 ∨ ((0 : Int) = 0 ∧ (1 : Int) = 0)))
  obtain ⟨pre, post, hsplit, hl1, _, _⟩ := hok.split
  have hpp : pre = [] ∧ post = [] := by
    cases pre with
    | nil => exact ⟨rfl, by simpa using hsplit.symm⟩
    | cons a p => simp at hsplit
  obtain ⟨hp1, hp2⟩ := hpp
  subst hp1; subst hp2
  have hl : l1 = [s.brk] := by rcases hl1 with e | e <;> simpa using e
  have hinv := hok.inv
  rw [hl] at hinv
  obtain ⟨r2, T, hrun2, hinv2, hw2, _, _, _, hids2, _, _⟩ :=
    hinv.arm_wake (by rw [hok.wait]; exact hw) (tick k)
  have hstep : run s [Op.add 0 1 (some 1) none (tick k) true] =
      some (ra.state, addEvents ra ++ []) := by
    simp only [run, step, hres]
  have := run_append hstep hrun2
  refine ⟨_, this, hinv2, hw2, ?_⟩
  show (idsOf ((addEvents ra ++ []) ++ r2.2)).length = 1
  rw [idsOf_append, List.append_nil, hok.events.1, hids2]
  rfl

theorem Inv.rounds_ok : ∀ (n k : Nat) {s : State}, Inv s [] → s.sigwait = false →
    ∃ r, run s (roundsFrom k n) = some r ∧ Inv r.1 [] ∧ r.1.sigwait = false ∧
      (idsOf r.2).length = n
  | 0, _, s, hi, hw => ⟨(s, []), rfl, hi, hw, rfl⟩
  | n + 1, k, s, hi, hw => by
    obtain ⟨r1, h1, hi1, hw1, hlen1⟩ := hi.round_ok hw k
    obtain ⟨r2, h2, hi2, hw2, hlen2⟩ := Inv.rounds_ok n (k + 1) hi1 hw1
    refine ⟨_, run_append h1 h2, hi2, hw2, ?_⟩
    show (idsOf (r1.2 ++ r2.2)).length = n + 1
    rw [idsOf_append, List.length_append, hlen1, hlen2]
    omega

theorem toInt32_mod (n : Nat) : toInt32 (n % 4294967296) = toInt32 n := by
  simp only [toInt32, Nat.mod_mod]

/-- Every execution from a state of the invariant keeps the ids of the records
in line with their addresses. -/
theorem Inv.idInv_run : ∀ (ops : List Op) {s : State} {l : List Nat} {r : State × List Event},
    Inv s l → IdInv s → run s ops = some r → IdInv r.1
  | [], s, l, r, _, hid, h => by
    have e : r = (s, []) := (Option.some.inj h).symm
    subst e
    exact hid
  | op :: ops, s, l, r, hi, hid, h => by
    obtain ⟨r1, r2, hs, hr, e⟩ := run_cons_some h
    subst e
    obtain ⟨l1, hok⟩ := hi.step_ok hs
    suffices hmid : IdInv r1.1 by
      have := Inv.idInv_run ops hok.inv hmid hr
      exact this
    obtain ⟨hc, hrec⟩ := hid
    have hold : ∀ x T, x < s.brk → r1.1.heap x = some T → T.timerId = toInt32 x := by
      intro x T hx hT
      obtain ⟨T0, hT0, _, d2, _⟩ := hok.kept x T hx hT
      rw [d2]; exact hrec x T0 hT0
    have hfresh : ∀ x T, r1.1.brk ≤ x → r1.1.heap x = some T → T.timerId = toInt32 x := by
      intro x T hx hT
      rw [hok.inv.fresh x hx] at hT
      exact Option.noConfusion hT
    rcases hok.sync with ⟨e1, e2⟩ | ⟨e1, e2⟩
    · refine ⟨by rw [e2, e1, hc]; omega, ?_⟩
      intro x T hT
      rcases Nat.lt_trichotomy x s.brk with hlt | heq | hgt
      · exact hold x T hlt hT
      · subst heq
        rw [hok.newid T (by rw [e1]; exact Nat.lt_succ_self _) hT, hc]
        exact toInt32_mod _
      · exact hfresh x T (by rw [e1]; omega) hT
    · refine ⟨by rw [e2, e1, hc], ?_⟩
      intro x T hT
      rcases Nat.lt_or_ge x s.brk with hlt | hge
      · exact hold x T hlt hT
      · exact hfresh x T (by rw [e1]; exact hge) hT

/-- As long as at most 2^32 records have been created, a queue entry that
carries an id is the first entry of the queue carrying it. -/
theorem first_of_few_adds (ops : List Op) (r : State × List Event)
    (h : run TimerInit ops = some r) (hfew : r.1.brk ≤ 4294967296) (l : List Nat)
    (hq : r.1.queue = some l) (a : Nat) (ha : a ∈ l) (timerId : Int)
    (hid : r.1.idOf a = some timerId) :
    l.find? (fun b => decide (r.1.idOf b = some timerId)) = some a := by
  obtain ⟨l1, hi⟩ := Inv.run_ok ops Inv.init h
  have el : l1 = l := by
    have := hi.queue_eq
    rw [hq] at this
    exact (Option.some.inj this).symm
  subst el
  have hidinv : IdInv r.1 :=
    Inv.idInv_run ops Inv.init ⟨rfl, fun x T hT => by simp [TimerInit] at hT⟩ h
  cases hf : l1.find? (fun b => decide (r.1.idOf b = some timerId)) with
  | none =>
    have := List.find?_eq_none.mp hf a ha
    simp [hid] at this
  | some b =>
    have hb : b ∈ l1 := List.mem_of_find?_eq_some hf
    have hpb : r.1.idOf b = some timerId := by
      have := List.find?_some hf
      simpa using this
    obtain ⟨A, hA⟩ := hi.chain.mem_some a ha
    obtain ⟨B, hB⟩ := hi.chain.mem_some b hb
    have h1 : A.timerId = timerId := by simpa [State.idOf, hA] using hid
    have h2 : B.timerId = timerId := by simpa [State.idOf, hB] using hpb
    have h3 : toInt32 b = toInt32 a := by
      rw [← hidinv.2 a A hA, ← hidinv.2 b B hB, h1, h2]
    have hlta := hi.mem_lt a ha
    have hltb := hi.mem_lt b hb
    rw [toInt32_inj (by omega) (by omega) h3]

/-! ## Cancelled timers -/

/-- A timer that is cancelled or gone, at an address already handed out, is
never passed to its handler by a later step. -/
theorem Inv.dead_run (a : Nat) : ∀ (ops : List Op) {s : State} {l : List Nat}
    {r : State × List Event}, Inv s l → a < s.brk →
    (∀ T, s.heap a = some T → T.cancelled = 1) → run s ops = some r → a ∉ invoked r.2
  | [], s, l, r, _, _, _, h => by
    have e : r = (s, []) := (Option.some.inj h).symm
    subst e
    simp [invoked]
  | op :: ops, s, l, r, hi, ha, hc, h => by
    obtain ⟨r1, r2, hs, hr, e⟩ := run_cons_some h
    subst e
    obtain ⟨l1, hok⟩ := hi.step_ok hs
    have h1 : a ∉ invoked r1.2 := by
      intro hm
      obtain ⟨_, T, hT, hne⟩ := hok.called a hm
      exact hne (hc T hT)
    have h2 : a ∉ invoked r2.2 := by
      refine Inv.dead_run a ops hok.inv (Nat.lt_of_lt_of_le ha hok.brk) ?_ hr
      intro T1 hT1
      obtain ⟨T, hT, _, _, _, hcc⟩ := hok.kept a T1 ha hT1
      rcases hcc with e | e
      · rw [e]; exact hc T hT
      · exact e
    show a ∉ invoked (r1.2 ++ r2.2)
    rw [invoked_append]
    exact fun hm => (List.mem_append.mp hm).elim h1 h2

/-- At every millisecond up to 2^32 a timer with the delay 1 us is due before
the 8640000th second. -/
theorem tick_before {k : Nat} (hk : k ≤ 4294967296) :
    TV_LESS_THAN (addDeadline (tick k) 0 1) { tv_sec := 8640000, tv_usec := 0 } = true := by
  rw [TV_LESS_THAN_iff]
  left
  have h0 : (0 : Int) ≤ ((k % 1000 * 1000 : Nat) : Int) + 1 := by omega
  simp only [addDeadline, tick, MICRO_PER_SEC]
  rw [Int.tdiv_eq_ediv h0 (by norm_num)]
  omega

theorem Parked.add_front {s : State} (hp : Parked s) (now : Timeval)
    (hlt : TV_LESS_THAN (addDeadline now 0 1) { tv_sec := 8640000, tv_usec := 0 } = true) :
    ∃ ra, TimerAdd s 0 1 (some 1) none now true = some ra ∧ Inv ra.state [s.brk, 0] ∧
      ra.state.sigwait = false ∧ ra.state.cur_id = (s.cur_id + 1) % 4294967296 ∧ 0 < s.brk ∧
      idsOf (addEvents ra) = [toInt32 s.cur_id] ∧
      (∃ X, ra.state.heap 0 = some X ∧ X.timerId = 0 ∧ X.cancelled = 0 ∧
        X.timeout = { tv_sec := 8640000, tv_usec := 0 }) ∧
      (∃ Y, ra.state.heap s.brk = some Y ∧ Y.timerId = toInt32 s.cur_id) := by
  obtain ⟨ra, l1, hres, hok⟩ := hp.inv.add 1 none now
    (by decide : ¬ ((0 : Int) < 0 ∨ (1 : Int) < 0 ∨ ((0 : Int) = 0 ∧ (1 : Int) = 0)))
  obtain ⟨X, hX, hXi, hXc, hXt⟩ := hp.held
  obtain ⟨pre, post, hsplit, hl1, hpre, _⟩ := hok.split
  have hb : 0 < s.brk := hp.inv.mem_lt 0 (by simp)
  have hpp : pre = [] ∧ post = [0] := by
    cases pre with
    | nil => exact ⟨rfl, by simpa using hsplit.symm⟩
    | cons a p =>
      have ha : a = 0 := by
        have := congrArg List.head? hsplit
        simpa using this.symm
      have := hpre a (List.mem_cons_self _ _) X (by rw [ha]; exact hX)
      rw [hXt, hlt] at this
      exact Bool.noConfusion this
  obtain ⟨hp1, hp2⟩ := hpp
  subst hp1; subst hp2
  have hl : l1 = [s.brk, 0] := by rcases hl1 with e | e <;> simpa using e
  have hinv := hok.inv
  rw [hl] at hinv
  obtain ⟨X1, hX1⟩ := hinv.chain.mem_some 0 (by simp)
  obtain ⟨Y, hY, d1, _, d3, _, d5, _⟩ := hok.old 0 (Nat.ne_of_lt hb) X1 hX1
  have eY : Y = X := by rw [hX] at hY; exact (Option.some.inj hY).symm
  subst eY
  obtain ⟨A, hA, _, _, _, hAi, _⟩ := hok.new
  exact ⟨ra, hres, hinv, by rw [hok.wait]; exact hp.wait, hok.cur, hb, hok.events.1,
    ⟨X1, hX1, by rw [d3]; exact hXi, by rw [d5]; exact hXc, by rw [d1]; exact hXt⟩,
    ⟨A, hA, hAi⟩⟩

theorem Parked.round {s : State} (hp : Parked s) {k : Nat} (hk : k ≤ 4294967296) :
    ∃ r, run s (roundAt k) = some r ∧ Parked r.1 ∧
      r.1.cur_id = (s.cur_id + 1) % 4294967296 := by
  obtain ⟨ra, hres, hinv, hw, hcur, _, _, ⟨X, hX, hXi, hXc, hXt⟩, _⟩ :=
    hp.add_front (tick k) (tick_before hk)
  obtain ⟨r2, T, hrun2, hinv2, hw2, hcur2, _, _, _, _, hkept⟩ := hinv.arm_wake hw (tick k)
  have hstep : run s [Op.add 0 1 (some 1) none (tick k) true] =
      some (ra.state, addEvents ra ++ []) := by
    simp only [run, step, hres]
  refine ⟨_, run_append hstep hrun2, ?_, by show r2.1.cur_id = _; rw [hcur2, hcur]⟩
  obtain ⟨X2, hX2⟩ := hinv2.chain.mem_some 0 (by simp)
  obtain ⟨T0, hT0, d1, d2, d3⟩ := hkept 0 X2 hX2
  have e0 : T0 = X := by rw [hX] at hT0; exact (Option.some.inj hT0).symm
  subst e0
  exact
    { inv := hinv2
      wait := hw2
      held := ⟨X2, hX2, by rw [d2]; exact hXi, by rw [d3]; exact hXc, by rw [d1]; exact hXt⟩ }

theorem Parked.rounds : ∀ (n k : Nat) {s : State}, k + n ≤ 4294967296 → Parked s →
    ∃ r, run s (roundsFrom k n) = some r ∧ Parked r.1 ∧
      r.1.cur_id = (s.cur_id + n) % 4294967296
  | 0, _, s, _, hp => ⟨(s, []), rfl, hp, (Nat.mod_eq_of_lt hp.inv.cur).symm⟩
  | n + 1, k, s, hk, hp => by
    obtain ⟨r1, h1, hp1, hc1⟩ := hp.round (by omega : k ≤ 4294967296)
    obtain ⟨r2, h2, hp2, hc2⟩ := Parked.rounds n (k + 1) (by omega) hp1
    refine ⟨_, run_append h1 h2, hp2, ?_⟩
    show r2.1.cur_id = _
    rw [hc2, hc1]
    omega

/-! ## The claims -/

/-- C1 (defect of the code): three successful `TimerAdd` calls on the fresh
queue, with delays 10 s, 20 s and 15 s at clock value 100 s, return the ids
0, 1 and 2, and leave a queue that holds the third and the second timer only:
the first timer (address 0) is no longer reached from `first`. -/
theorem C1_added_timer_lost :
    (run TimerInit [Op.add 10 0 (some 1) none ⟨100, 0⟩ true,
        Op.add 20 0 (some 1) none ⟨100, 0⟩ true,
        Op.add 15 0 (some 1) none ⟨100, 0⟩ true]).map
      (fun r => (idsOf r.2, r.1.queue)) = some ([0, 1, 2], some [2, 1]) := by
  decide

/-- C2: after `TimerInit` and any sequence of `TimerAdd`, `TimerRemove` and
dispatcher steps the walk from `first` along `next` terminates, and in the queue
it yields no entry is due strictly before an entry that precedes it, in
particular not before the entry just before it. -/
theorem C2_queue_sorted (ops : List Op) (r : State × List Event)
    (h : run TimerInit ops = some r) :
    ∃ l, r.1.queue = some l ∧ l.Chain' (NotBefore r.1) ∧ l.Pairwise (NotBefore r.1) := by
  obtain ⟨l, hi⟩ := Inv.run_ok ops Inv.init h
  exact ⟨l, hi.queue_eq, List.Pairwise.chain' hi.notBefore, hi.notBefore⟩

theorem C2_queue_sorted_witness :
    ∃ r, run TimerInit sampleOps = some r ∧
      ∃ l, r.1.queue = some l ∧ l.Chain' (NotBefore r.1) ∧ l.Pairwise (NotBefore r.1) :=
  ⟨_, rfl, C2_queue_sorted sampleOps _ rfl⟩

/-- The order among the entries that are in the queue: in every reachable state
two queue entries with the same deadline stand in the order of their creation
(addresses number the timers in that order), the dispatcher pops the head of
the queue, and a successful `TimerAdd` leaves no entry with the deadline of
the new timer behind the new timer. Entries that `TimerAdd` drops from the
chain are not covered. -/
theorem fifo_among_queued (ops : List Op) (r : State × List Event)
    (h : run TimerInit ops = some r) :
    (∃ l, r.1.queue = some l ∧
      l.Pairwise (fun a b => r.1.deadline a = r.1.deadline b → a < b) ∧
      ∀ r2, cronometerWake r.1 = some r2 → r2.1.queue = some l.tail) ∧
    (∀ (sec usec : Int) (hd : Nat) (handleArg : Option Nat) (now : Timeval),
      ¬ (sec < 0 ∨ usec < 0 ∨ (sec = 0 ∧ usec = 0)) →
      ∃ ra pre post, TimerAdd r.1 sec usec (some hd) handleArg now true = some ra ∧
        ra.state.queue = some (pre ++ r.1.brk :: post) ∧
        ∀ b ∈ post, ra.state.deadline b ≠ ra.state.deadline r.1.brk) := by
  obtain ⟨l, hi⟩ := Inv.run_ok ops Inv.init h
  refine ⟨⟨l, hi.queue_eq, hi.fifo, ?_⟩, ?_⟩
  · intro r2 hw
    by_cases hs : r.1.sigwait = true
    · cases l with
      | nil => exact absurd hi.chain (hi.wait hs)
      | cons a rest =>
        obtain ⟨s1, T, _, hd, hres⟩ := cronometerWake_eq hi hs
        obtain ⟨s2, hd2, hinv, _⟩ := hi.dequeue_head
        rw [hd] at hd2
        have e : s2 = s1 := (Option.some.inj hd2).symm
        subst e
        rw [hres] at hw
        have e2 := (Option.some.inj hw).symm
        subst e2
        exact hinv.queue_eq
    · have hs : r.1.sigwait = false := by simpa using hs
      simp [cronometerWake, hs] at hw
  · intro sec usec hd handleArg now hv
    obtain ⟨ra, l1, hres, hok⟩ := hi.add hd handleArg now hv
    obtain ⟨pre, post, e, hb⟩ := hok.behind hi
    exact ⟨ra, pre, post, hres, by rw [← e]; exact hok.inv.queue_eq, hb⟩

theorem fifo_among_queued_witness :
    ∃ r, run TimerInit sampleOps = some r ∧
      ((∃ l, r.1.queue = some l ∧
        l.Pairwise (fun a b => r.1.deadline a = r.1.deadline b → a < b) ∧
        ∀ r2, cronometerWake r.1 = some r2 → r2.1.queue = some l.tail) ∧
      (∀ (sec usec : Int) (hd : Nat) (handleArg : Option Nat) (now : Timeval),
        ¬ (sec < 0 ∨ usec < 0 ∨ (sec = 0 ∧ usec = 0)) →
        ∃ ra pre post, TimerAdd r.1 sec usec (some hd) handleArg now true = some ra ∧
          ra.state.queue = some (pre ++ r.1.brk :: post) ∧
          ∀ b ∈ post, ra.state.deadline b ≠ ra.state.deadline r.1.brk)) :=
  ⟨_, rfl, fifo_among_queued sampleOps _ rfl⟩

/-- C4 (defect of the code): with the clock at 100 s 600000 us, `TimerAdd` with
the delay 0 s 500000 us stores the deadline 101 s 1100001 us, which is not the
instant 101 s 100000 us the clock value plus the delay denotes. -/
theorem C4_deadline_not_now_plus_delay :
    (TimerAdd TimerInit 0 500000 (some 1) none ⟨100, 600000⟩ true).bind
        (fun r => r.state.deadline 0) = some ⟨101, 1100001⟩ ∧
      (101 : Int) * 1000000 + 1100001 ≠ (100 + 0) * 1000000 + 600000 + 500000 := by
  decide

/-- C5: in every reachable state, with a successful allocation, `TimerAdd`
returns; it rejects the call (returns -1 and leaves the state as it is) exactly
when the arguments are invalid, and for every other input the new queue holds
the new record exactly once next to entries of the old queue only. -/
theorem C5_rejects_exactly_invalid (ops : List Op) (r : State × List Event)
    (h : run TimerInit ops = some r) (sec usec : Int) (handle handleArg : Option Nat)
    (now : Timeval) :
    ∃ ra, TimerAdd r.1 sec usec handle handleArg now true = some ra ∧
      ((ra.ret = -1 ∧ ra.state = r.1) ↔ invalidArgs sec usec handle) ∧
      (¬ invalidArgs sec usec handle →
        ∃ l l1, r.1.queue = some l ∧ ra.state.queue = some l1 ∧ r.1.brk ∉ l ∧
          l1.count r.1.brk = 1 ∧ (∀ x ∈ l1, x = r.1.brk ∨ x ∈ l) ∧
          ∃ A, ra.state.heap r.1.brk = some A ∧ A.handler = handle ∧
            A.handler_arg = handleArg) := by
  obtain ⟨l, hi⟩ := Inv.run_ok ops Inv.init h
  by_cases hinv : invalidArgs sec usec handle
  · refine ⟨_, TimerAdd_fail r.1 sec usec handle handleArg now true (Or.inl hinv), ?_, ?_⟩
    · exact ⟨fun _ => hinv, fun _ => ⟨rfl, rfl⟩⟩
    · intro hn; exact absurd hinv hn
  · have hv : ¬ (sec < 0 ∨ usec < 0 ∨ (sec = 0 ∧ usec = 0)) := fun hc => hinv (Or.inr hc)
    obtain ⟨hd, hhd⟩ : ∃ hd, handle = some hd := by
      cases handle with
      | none => exact absurd (Or.inl rfl) hinv
      | some hd => exact ⟨hd, rfl⟩
    subst hhd
    obtain ⟨ra, l1, hres, hok⟩ := hi.add hd handleArg now hv
    obtain ⟨pre, post, hmem, _⟩ := hok.behind hi
    refine ⟨ra, hres, ?_, ?_⟩
    · constructor
      · intro hc
        have h1 := hok.brk
        rw [hc.2] at h1
        omega
      · intro hc; exact absurd hc hinv
    · intro _
      obtain ⟨A, hA, _, hAh, hAa, _⟩ := hok.new
      obtain ⟨p2, q2, hsplit, hl1, _, _⟩ := hok.split
      refine ⟨l, l1, hi.queue_eq, hok.inv.queue_eq,
        fun hm => Nat.lt_irrefl _ (hi.mem_lt _ hm),
        List.count_eq_one_of_mem hok.inv.nodup (by rw [hmem]; simp), ?_, A, hA, hAh, hAa⟩
      intro x hx
      rcases hl1 with e | e
      · rw [e] at hx
        rcases List.mem_append.mp hx with hm | hm
        · exact Or.inr (by rw [hsplit]; exact List.mem_append_left _ hm)
        · rcases List.mem_cons.mp hm with e2 | hm2
          · exact Or.inl e2
          · exact Or.inr (by rw [hsplit]; exact List.mem_append_right _ hm2)
      · rw [e] at hx
        rcases List.mem_cons.mp hx with e2 | hm2
        · exact Or.inl e2
        · exact Or.inr (by rw [hsplit]; exact List.mem_append_right _ hm2)

theorem C5_rejects_exactly_invalid_witness :
    ∃ r, run TimerInit sampleOps = some r ∧
      ∃ ra, TimerAdd r.1 3 0 (some 1) none ⟨103, 0⟩ true = some ra ∧
        ((ra.ret = -1 ∧ ra.state = r.1) ↔ invalidArgs 3 0 (some 1)) ∧
        (¬ invalidArgs 3 0 (some 1) →
          ∃ l l1, r.1.queue = some l ∧ ra.state.queue = some l1 ∧ r.1.brk ∉ l ∧
            l1.count r.1.brk = 1 ∧ (∀ x ∈ l1, x = r.1.brk ∨ x ∈ l) ∧
            ∃ A, ra.state.heap r.1.brk = some A ∧ A.handler = some 1 ∧
              A.handler_arg = none) :=
  ⟨_, rfl, C5_rejects_exactly_invalid sampleOps _ rfl 3 0 (some 1) none ⟨103, 0⟩⟩

/-- C6: whenever `TimerAdd` fails, for invalid arguments or because the
allocation fails, it returns -1, writes nothing through `timerId` and leaves
the whole state (queue, records, id counter) as it was. -/
theorem C6_failure_leaves_state (s : State) (sec usec : Int) (handle handleArg : Option Nat)
    (now : Timeval) (mallocOk : Bool)
    (h : invalidArgs sec usec handle ∨ mallocOk = false) :
    ∃ ra, TimerAdd s sec usec handle handleArg now mallocOk = some ra ∧ ra.state = s ∧
      ra.timerIdOut = none ∧ ra.ret = -1 :=
  ⟨_, TimerAdd_fail s sec usec handle handleArg now mallocOk h, rfl, rfl, rfl⟩

theorem C6_failure_leaves_state_witness :
    (invalidArgs 5 0 (some 1) ∨ false = false) ∧
      ∃ ra, TimerAdd TimerInit 5 0 (some 1) none ⟨100, 0⟩ false = some ra ∧
        ra.state = TimerInit ∧ ra.timerIdOut = none ∧ ra.ret = -1 :=
  ⟨Or.inr rfl, C6_failure_leaves_state TimerInit 5 0 (some 1) none ⟨100, 0⟩ false (Or.inr rfl)⟩

/-- C7 (the claim fails): a call with valid arguments whose allocation fails and
a call with the invalid delay (0, 0) return the same result. -/
theorem C7_counterexample :
    ¬ ((TimerAdd TimerInit 1 0 (some 1) none ⟨100, 0⟩ false).map AddResult.ret ≠
        (TimerAdd TimerInit 0 0 (some 1) none ⟨100, 0⟩ true).map AddResult.ret) := by
  decide

/-- C7 (as amended): `TimerAdd` returns -1 for an allocation failure and -1 for
an invalid-argument failure alike. -/
theorem C7_failures_return_same (s : State) (sec usec : Int) (handle handleArg : Option Nat)
    (now : Timeval) (sec2 usec2 : Int) (handle2 handleArg2 : Option Nat) (now2 : Timeval)
    (mallocOk2 : Bool) (hi : invalidArgs sec2 usec2 handle2) :
    (TimerAdd s sec usec handle handleArg now false).map AddResult.ret = some (-1) ∧
      (TimerAdd s sec2 usec2 handle2 handleArg2 now2 mallocOk2).map AddResult.ret =
        some (-1) := by
  rw [TimerAdd_fail s sec usec handle handleArg now false (Or.inr rfl),
    TimerAdd_fail s sec2 usec2 handle2 handleArg2 now2 mallocOk2 (Or.inl hi)]
  exact ⟨rfl, rfl⟩

theorem C7_failures_return_same_witness :
    invalidArgs 0 0 (some 1) ∧
      (TimerAdd TimerInit 1 0 (some 1) none ⟨100, 0⟩ false).map AddResult.ret = some (-1) ∧
      (TimerAdd TimerInit 0 0 (some 1) none ⟨100, 0⟩ true).map AddResult.ret = some (-1) :=
  ⟨by simp [invalidArgs],
    C7_failures_return_same TimerInit 1 0 (some 1) none ⟨100, 0⟩ 0 0 (some 1) none ⟨100, 0⟩ true
      (by simp [invalidArgs])⟩

/-- C9: if the walk of the queue ends and no entry of the queue carries the id,
`TimerRemove` returns with the state unchanged and has called no cleanup. -/
theorem C9_remove_unknown_id (s : State) (l : List Nat) (timerId : Int) (free_arg : Option Nat)
    (hq : s.queue = some l) (hno : ∀ a ∈ l, s.idOf a ≠ some timerId) :
    TimerRemove s timerId free_arg = some (s, []) := by
  have := removeScan_walk timerId (s.brk + 1) s.first l hq hno
  unfold TimerRemove
  rw [this]
  rfl

theorem C9_remove_unknown_id_witness :
    ∃ r, run TimerInit sampleOps = some r ∧ r.1.queue = some [2, 0] ∧
      (∀ a ∈ [2, 0], r.1.idOf a ≠ some 7) ∧
      TimerRemove r.1 7 (some 3) = some (r.1, []) :=
  ⟨_, rfl, by decide, by decide,
    C9_remove_unknown_id _ [2, 0] 7 (some 3) (by decide) (by decide)⟩

/-- C8 (the claim fails): in the execution of 2^31 rounds, one per millisecond
(add a timer, let the dispatcher fire it), followed by one more `TimerAdd`,
every `TimerAdd` succeeds, the first returns 0 and the last returns
-2147483648, which is smaller than every id returned before. -/
theorem C8_counterexample :
    ∃ r, run TimerInit wrapOps = some r ∧ (idsOf r.2)[0]? = some 0 ∧
      (idsOf r.2)[2147483648]? = some (-2147483648) := by
  obtain ⟨r1, h1, hi1, hw1, hlen1⟩ := Inv.rounds_ok 2147483648 0 Inv.init rfl
  obtain ⟨ra, l1, hres, hok⟩ := hi1.add 1 none (tick 2147483648)
    (by decide : ¬ ((0 : Int) < 0 ∨ (1 : Int) < 0 ∨ ((0 : Int) = 0 ∧ (1 : Int) = 0)))
  have hstep : run r1.1 [Op.add 0 1 (some 1) none (tick 2147483648) true] =
      some (ra.state, addEvents ra ++ []) := by
    simp only [run, step, hres]
  have hrun : run TimerInit wrapOps = some (ra.state, r1.2 ++ (addEvents ra ++ [])) :=
    run_append h1 hstep
  have hlen : (idsOf (r1.2 ++ (addEvents ra ++ []))).length = 2147483648 + 1 := by
    rw [idsOf_append, List.append_nil, List.length_append, hlen1, hok.events.1]
    rfl
  have hval := Inv.ids_run wrapOps Inv.init hrun
  refine ⟨_, hrun, ?_, ?_⟩
  · have hlt : 0 < (idsOf (r1.2 ++ (addEvents ra ++ []))).length := by rw [hlen]; omega
    have h0 := hval 0 _ (List.getElem?_eq_getElem hlt)
    show (idsOf (r1.2 ++ (addEvents ra ++ [])))[0]? = some 0
    rw [List.getElem?_eq_getElem hlt, h0]
    rfl
  · have hlt : 2147483648 < (idsOf (r1.2 ++ (addEvents ra ++ []))).length := by
      rw [hlen]; omega
    have h0 := hval 2147483648 _ (List.getElem?_eq_getElem hlt)
    show (idsOf (r1.2 ++ (addEvents ra ++ [])))[2147483648]? = some (-2147483648)
    rw [List.getElem?_eq_getElem hlt, h0]
    rfl

/-- C8 (as amended): in every execution after `TimerInit` the first successful
`TimerAdd` returns 0, of two successful calls among the first 2^31 the later one
returns the larger id, and two successful calls among the first 2^32 return
different ids. -/
theorem C8_ids_increase_before_wrap (ops : List Op) (r : State × List Event)
    (h : run TimerInit ops = some r) :
    (∀ a, (idsOf r.2).head? = some a → a = 0) ∧
    (∀ i j a b, i < j → j < 2147483648 → (idsOf r.2)[i]? = some a →
      (idsOf r.2)[j]? = some b → a < b) ∧
    (∀ i j a b, i < j → j < 4294967296 → (idsOf r.2)[i]? = some a →
      (idsOf r.2)[j]? = some b → a ≠ b) := by
  have hval := Inv.ids_run ops Inv.init h
  have e0 : TimerInit.cur_id = 0 := rfl
  refine ⟨?_, ?_, ?_⟩
  · intro a ha
    rw [List.head?_eq_getElem?] at ha
    rw [hval 0 a ha]
    rfl
  · intro i j a b hij hj ha hb
    rw [hval i a ha, hval j b hb]
    rw [e0, Nat.zero_add, Nat.zero_add, toInt32_small (by omega : i < 2147483648),
      toInt32_small hj]
    exact_mod_cast hij
  · intro i j a b hij hj ha hb he
    rw [hval i a ha, hval j b hb, e0, Nat.zero_add, Nat.zero_add] at he
    have := toInt32_inj (by omega) hj he
    omega

theorem C8_ids_increase_before_wrap_witness :
    ∃ r, run TimerInit sampleOps = some r ∧
      (∀ a, (idsOf r.2).head? = some a → a = 0) ∧
      (∀ i j a b, i < j → j < 2147483648 → (idsOf r.2)[i]? = some a →
        (idsOf r.2)[j]? = some b → a < b) ∧
      (∀ i j a b, i < j → j < 4294967296 → (idsOf r.2)[i]? = some a →
        (idsOf r.2)[j]? = some b → a ≠ b) :=
  ⟨_, rfl, C8_ids_increase_before_wrap sampleOps _ rfl⟩

/-- C10 (the claim fails): a timer with the delay of 100 days is added first
(address 0, id 0); after 2^32 - 1 rounds, one per millisecond, the counter is
back at 0 and the next timer added gets the id 0 too and stands before the
first one. `TimerRemove(0)`, called while the first timer is in the queue with
id 0, cancels the newer timer, and the dispatcher later calls the handler of
the first timer. -/
theorem C10_counterexample :
    ∃ r1 r2 r3, run TimerInit wrapRemovePrefix = some r1 ∧
      (∃ l, r1.1.queue = some l ∧ 0 ∈ l) ∧ r1.1.idOf 0 = some 0 ∧
      TimerRemove r1.1 0 none = some r2 ∧ run r2.1 wrapRemoveSuffix = some r3 ∧
      0 ∈ invoked r3.2 := by
  -- the first timer
  obtain ⟨ra0, l0, hres0, hok0⟩ := Inv.init.add 1 none (tick 0)
    (by decide :
      ¬ ((8640000 : Int) < 0 ∨ (0 : Int) < 0 ∨ ((8640000 : Int) = 0 ∧ (0 : Int) = 0)))
  obtain ⟨pre, post, hsplit, hl0, _, _⟩ := hok0.split
  have hpp : pre = [] ∧ post = [] := by
    cases pre with
    | nil => exact ⟨rfl, by simpa using hsplit.symm⟩
    | cons a p => simp at hsplit
  obtain ⟨hp1, hp2⟩ := hpp
  subst hp1; subst hp2
  have hl : l0 = [0] := by rcases hl0 with e | e <;> simpa [TimerInit] using e
  have hinv0 := hok0.inv
  rw [hl] at hinv0
  obtain ⟨A, hA, hAt, _, _, hAi, hAc⟩ := hok0.new
  have hpark0 : Parked ra0.state :=
    { inv := hinv0
      wait := hok0.wait
      held := ⟨A, hA, hAi, hAc, hAt⟩ }
  have hstep0 : run TimerInit [Op.add 8640000 0 (some 1) none (tick 0) true] =
      some (ra0.state, addEvents ra0 ++ []) := by
    simp only [run, step, hres0]
  -- the rounds
  obtain ⟨ra, hrunA, hparkA, hcurA⟩ := hpark0.rounds 4294967295 1 (Nat.le_refl _)
  have hcur0 : ra.1.cur_id = 0 := by
    rw [hcurA, hok0.cur]
    rfl
  -- the timer that gets the id 0 again
  obtain ⟨rb, hresB, hinvB, hwB, _, hbrk, _, ⟨X, hX, hXi, hXc, _⟩, ⟨Y, hY, hYi⟩⟩ :=
    hparkA.add_front (tick 4294967296) (tick_before (Nat.le_refl _))
  rw [hcur0] at hYi
  have hYi : Y.timerId = 0 := hYi
  have hstepB : run ra.1 [Op.add 0 1 (some 1) none (tick 4294967296) true] =
      some (rb.state, addEvents rb ++ []) := by
    simp only [run, step, hresB]
  have hrun1 := run_append hstep0 (run_append hrunA hstepB)
  -- TimerRemove(0)
  have hfind : List.find? (fun b => decide ((rb.state.heap b).map Timer.timerId = some 0))
      [ra.1.brk, 0] = some ra.1.brk := by
    simp [List.find?_cons, hY, hYi]
  obtain ⟨s1, ev, hrem, hinv1, _, _, hw1, _, _, _, _, hfound, hothers⟩ :=
    hinvB.remove 0 none
  obtain ⟨Y1, hY1, hY1c⟩ := hfound _ hfind
  have h0 : s1.heap 0 = some X := by
    rw [hothers 0 (by rw [hfind]; intro e; exact absurd (Option.some.inj e) (Nat.ne_of_gt hbrk))]
    exact hX
  -- the dispatcher drops the cancelled head and fires the first timer
  obtain ⟨r3a, T, hrunC, hinvC, hwC, _, _, hT, _, hinvkC, hkeptC⟩ :=
    hinv1.arm_wake (by rw [hw1]; exact hwB) (tick 4294967296)
  obtain ⟨X2, hX2⟩ := hinvC.chain.mem_some 0 (by simp)
  obtain ⟨T0, hT0, _, _, d3⟩ := hkeptC 0 X2 hX2
  have e0 : T0 = X := by rw [h0] at hT0; exact (Option.some.inj hT0).symm
  subst e0
  obtain ⟨r3b, T2, hrunD, _, _, _, _, hT2, _, hinvkD, _⟩ :=
    hinvC.arm_wake hwC (tick 4294967296)
  have e2 : T2 = X2 := by rw [hX2] at hT2; exact (Option.some.inj hT2).symm
  subst e2
  have hne : ¬ T2.cancelled = 1 := by rw [d3, hXc]; decide
  rw [if_neg hne] at hinvkD
  refine ⟨_, (s1, ev), _, hrun1, ⟨_, hinvB.queue_eq, by simp⟩, ?_, hrem,
    run_append hrunC hrunD, ?_⟩
  · show (rb.state.heap 0).map Timer.timerId = some 0
    rw [hX, ← hXi]; rfl
  · show 0 ∈ invoked (r3a.2 ++ r3b.2)
    rw [invoked_append, hinvkD]
    simp

/-- C10 (as amended): once `TimerRemove` has been called with an id, the first
entry of the queue that carries this id is never passed to its handler, neither
by the call itself nor by any later sequence of `TimerAdd`, `TimerRemove` and
dispatcher steps. -/
theorem C10_removed_never_invoked (ops1 : List Op) (r1 : State × List Event)
    (h1 : run TimerInit ops1 = some r1) (timerId : Int) (free_arg : Option Nat)
    (l : List Nat) (a : Nat) (hq : r1.1.queue = some l)
    (hfind : l.find? (fun b => decide (r1.1.idOf b = some timerId)) = some a)
    (r2 : State × List Event) (h2 : TimerRemove r1.1 timerId free_arg = some r2)
    (ops2 : List Op) (r3 : State × List Event) (h3 : run r2.1 ops2 = some r3) :
    a ∉ invoked r2.2 ∧ a ∉ invoked r3.2 := by
  obtain ⟨l1, hi⟩ := Inv.run_ok ops1 Inv.init h1
  have el : l1 = l := by
    have := hi.queue_eq
    rw [hq] at this
    exact (Option.some.inj this).symm
  subst el
  obtain ⟨s1, ev, hrem, hinv1, _, hbrk, _, _, hinvk, _, _, hfound, _⟩ :=
    hi.remove timerId free_arg
  rw [h2] at hrem
  have e2 : r2 = (s1, ev) := Option.some.inj hrem
  subst e2
  obtain ⟨T1, hT1, hc1⟩ := hfound a hfind
  have ha : a < s1.brk := by
    rw [hbrk]; exact hi.mem_lt a (List.mem_of_find?_eq_some hfind)
  refine ⟨?_, Inv.dead_run a ops2 hinv1 ha ?_ h3⟩
  · show a ∉ invoked ev
    rw [hinvk]; simp
  · intro T hT
    have : (s1, ev).1.heap a = some T := hT
    rw [show (s1, ev).1.heap a = s1.heap a from rfl, hT1] at this
    rw [← Option.some.inj this]; exact hc1

theorem C10_removed_never_invoked_witness :
    ∃ r1, run TimerInit twoAdds = some r1 ∧ r1.1.queue = some [1, 0] ∧
      List.find? (fun b => decide (r1.1.idOf b = some 1)) [1, 0] = some 1 ∧
      ∃ r2, TimerRemove r1.1 1 none = some r2 ∧
      ∃ r3, run r2.1 wrapRemoveSuffix = some r3 ∧
        1 ∉ invoked r2.2 ∧ 1 ∉ invoked r3.2 :=
  ⟨_, rfl, by decide, by decide, _, rfl, _, rfl,
    C10_removed_never_invoked twoAdds _ rfl 1 none [1, 0] 1 (by decide) (by decide) _ rfl
      wrapRemoveSuffix _ rfl⟩

/-! ## The interval armed by TimerStart -/

/-- For a deadline `d` strictly after the clock value `n`, `TimerStart` arms
`TV_MINUS d n`, which is the difference of the two instants when
`d.tv_usec >= n.tv_usec` and one microsecond less otherwise. -/
theorem TimerStart_future (d n : Timeval) (h : TV_LESS_THAN n d = true) :
    TimerStart (some d) n = some (TV_MINUS d n) ∧
      (TV_MINUS d n).tv_sec * 1000000 + (TV_MINUS d n).tv_usec =
        (d.tv_sec * 1000000 + d.tv_usec) - (n.tv_sec * 1000000 + n.tv_usec) -
          (if d.tv_usec ≥ n.tv_usec then 0 else 1) := by
  refine ⟨by simp [TimerStart, h], ?_⟩
  unfold TV_MINUS
  by_cases hu : d.tv_usec ≥ n.tv_usec
  · simp only [if_pos hu]; omega
  · simp only [if_neg hu, MAX_USEC]; omega

/-- For a deadline that is not strictly after the clock value, `TimerStart` arms
`ALMOST_NOW`, 1000 microseconds. -/
theorem TimerStart_past (d n : Timeval) (h : TV_LESS_THAN n d = false) :
    TimerStart (some d) n = some { tv_sec := 0, tv_usec := 1000 } := by
  simp [TimerStart, h, ALMOST_NOW]

/-! ## The signal of TimerAdd -/

/-- On a non-empty queue no path of `TimerAdd` signals the condition variable. -/
theorem TimerAdd_quiet {s : State} {sec usec : Int} {handle handleArg : Option Nat}
    {now : Timeval} {mallocOk : Bool} {r : AddResult} {f : Nat}
    (h : TimerAdd s sec usec handle handleArg now mallocOk = some r)
    (hf : s.first = some f) : r.signalled = false := by
  unfold TimerAdd at h
  simp only [hf] at h
  split at h
  · rw [← Option.some.inj h]
  · split at h
    · rw [← Option.some.inj h]
    · split at h
      · rw [← Option.some.inj h]
      · simp only [Option.bind_eq_bind, Option.bind_eq_some] at h
        obtain ⟨A0, _, tmp, _, h⟩ := h
        split at h
        · simp only [Option.bind_eq_some] at h
          obtain ⟨_, _, _, _, _, _, _, _, h⟩ := h
          rw [← Option.some.inj h]
        · simp only [Option.bind_eq_some] at h
          obtain ⟨T, _, h⟩ := h
          split at h
          · simp only [Option.bind_eq_some] at h
            obtain ⟨_, _, _, _, h⟩ := h
            rw [← Option.some.inj h]
          · simp only [Option.bind_eq_some] at h
            obtain ⟨_, _, _, _, _, _, _, _, _, _, _, _, h⟩ := h
            rw [← Option.some.inj h]

/-! ## TimerRemove on a timer it finds -/

theorem Heap.store_twice (h : Heap) (a : Nat) (t1 t2 : Timer) :
    (h.store a t1).store a t2 = h.store a t2 := by
  funext b
  by_cases hb : b = a <;> simp [Heap.store, hb]

theorem find?_agree {p q : Nat → Bool} : ∀ (l : List Nat), (∀ b ∈ l, p b = q b) →
    l.find? p = l.find? q
  | [], _ => rfl
  | b :: l, h => by
    have hb := h b (List.mem_cons_self _ _)
    have ih := find?_agree l (fun c hc => h c (List.mem_cons_of_mem _ hc))
    simp only [List.find?_cons, hb, ih]

/-- `TimerRemove` on the first entry `a` that carries the id, in a state of the
invariant: the entry is marked cancelled, its argument is cleared when a cleanup
is given, and the cleanup is called on the argument the entry had. -/
theorem TimerRemove_found {s : State} {l : List Nat} (hi : Inv s l) (id : Int)
    (f : Option Nat) {a : Nat} {T : Timer}
    (hfind : l.find? (fun b => decide ((s.heap b).map Timer.timerId = some id)) = some a)
    (hT : s.heap a = some T) :
    TimerRemove s id f =
      some ({ s with heap := s.heap.store a (cancelledRecord f T) }, cleanupCalls f T) := by
  have hscan := removeScan_chain id hi.chain hi.length_lt
  have hu := hi.inuse a T hT
  cases f with
  | none =>
    unfold TimerRemove
    rw [hscan]
    simp only [Option.bind_eq_bind, Option.some_bind, hfind, hT, if_pos hu, Heap.modify,
      cancelledRecord, cleanupCalls]
  | some g =>
    unfold TimerRemove
    rw [hscan]
    simp only [Option.bind_eq_bind, Option.some_bind, hfind, hT, if_pos hu, Heap.modify,
      Heap.store_same, Heap.store_twice, cancelledRecord, cleanupCalls]

/-! ## The claims, continued -/

/-- C11 (defect of the code): timers due at 110 s and 120 s are added and the
dispatcher arms the wake-up for the head, due at 110 s; a timer due at 115 s is
added while the dispatcher waits; at the wake-up the dispatcher calls the
handler of the timer due at 115 s (address 2), so a wake-up delivered at 110 s
runs that handler 5 s before its deadline. -/
theorem C11_handler_before_deadline :
    (run TimerInit ascendingAdds).bind (fun r => r.1.first.bind r.1.deadline) =
        some ⟨110, 0⟩ ∧
      (run TimerInit (ascendingAdds ++
          [Op.arm ⟨100, 0⟩, Op.add 15 0 (some 1) none ⟨100, 0⟩ true])).bind
        (fun r => r.1.deadline 2) = some ⟨115, 0⟩ ∧
      (run TimerInit (ascendingAdds ++
          [Op.arm ⟨100, 0⟩, Op.add 15 0 (some 1) none ⟨100, 0⟩ true, Op.wake])).map
        (fun r => invoked r.2) = some [2] ∧
      TV_LESS_THAN ⟨110, 0⟩ ⟨115, 0⟩ = true := by
  decide

/-- C12 (defect of the code): two timers are added and the dispatcher arms the
head (id 0); `TimerRemove(1, NULL)` finds the second timer, which is not the
head, and leaves it in the queue, marked cancelled: the queue still holds both
timers. -/
theorem C12_remove_does_not_evict :
    (run TimerInit (ascendingAdds ++ [Op.arm ⟨100, 0⟩])).bind (fun r => r.1.queue) =
        some [0, 1] ∧
      (run TimerInit (ascendingAdds ++ [Op.arm ⟨100, 0⟩, Op.remove 1 none])).bind
        (fun r => r.1.queue) = some [0, 1] ∧
      (run TimerInit (ascendingAdds ++ [Op.arm ⟨100, 0⟩, Op.remove 1 none])).bind
        (fun r => (r.1.heap 1).map Timer.cancelled) = some 1 := by
  decide

/-- C15 (defect of the code): after two `TimerAdd` calls in the order of the
deadlines the queue holds the timers at the addresses 0 and 1; `TimerDestroy`
frees the record at address 1 only, the record at address 0 stays allocated. -/
theorem C15_destroy_leaves_timer :
    (run TimerInit ascendingAdds).bind (fun r => r.1.queue) = some [0, 1] ∧
      ((run TimerInit ascendingAdds).bind (fun r => TimerDestroy r.1)).map
        (fun s => ((s.heap 0).isSome, (s.heap 1).isSome)) = some (true, false) := by
  decide

/-- C16 (defect of the code): for the deadline 101 s 0 us and the clock value
100 s 500000 us `TimerStart` arms 0 s 499999 us, one microsecond less than the
difference 500000 us of the two instants; the dispatcher does so for a timer
added with the delay 1 s at 100 s 0 us and armed at 100 s 500000 us. -/
theorem C16_interval_one_short :
    TimerStart (some ⟨101, 0⟩) ⟨100, 500000⟩ = some ⟨0, 499999⟩ ∧
      (0 : Int) * 1000000 + 499999 ≠ (101 * 1000000 + 0) - (100 * 1000000 + 500000) ∧
      (run TimerInit [Op.add 1 0 (some 1) none ⟨100, 0⟩ true, Op.arm ⟨100, 500000⟩]).map
        Prod.snd = some [Event.signal, Event.added 0 (some 0), Event.armed ⟨0, 499999⟩] := by
  decide

/-- C17 (defect of the code): for the deadline 101 s 0 us and the clock value
100 s 999999 us, one microsecond before it, `TimerStart` passes the interval
0 s 0 us to `setitimer`, which is not a strictly positive duration; the
dispatcher does so for a timer added with the delay 1 s at 100 s 0 us and armed
at 100 s 999999 us. -/
theorem C17_interval_zero :
    TV_LESS_THAN ⟨100, 999999⟩ ⟨101, 0⟩ = true ∧
      TimerStart (some ⟨101, 0⟩) ⟨100, 999999⟩ = some ⟨0, 0⟩ ∧
      (run TimerInit [Op.add 1 0 (some 1) none ⟨100, 0⟩ true, Op.arm ⟨100, 999999⟩]).map
        Prod.snd = some [Event.signal, Event.added 0 (some 0), Event.armed ⟨0, 0⟩] := by
  decide

/-- C18 (defect of the code): after two `TimerAdd` calls, with no step of the
dispatcher, both timers of the queue have `in_use` set, the head and the
timer behind it. -/
theorem C18_two_timers_in_use :
    (run TimerInit ascendingAdds).map
      (fun r => (r.1.queue, r.1.sigwait, (r.1.heap 0).map Timer.in_use,
        (r.1.heap 1).map Timer.in_use)) = some (some [0, 1], false, some 1, some 1) := by
  decide

/-- C19: in every state reached from `TimerInit` in which the dispatcher waits
for its wake-up, `first` is not `NULL` and points to an allocated record, and
the wake-up step of the dispatcher is defined. -/
theorem C19_head_present_at_wake (ops : List Op) (r : State × List Event)
    (h : run TimerInit ops = some r) (hw : r.1.sigwait = true) :
    ∃ a T, r.1.first = some a ∧ r.1.heap a = some T ∧
      ∃ r2, cronometerWake r.1 = some r2 := by
  obtain ⟨l, hi⟩ := Inv.run_ok ops Inv.init h
  cases l with
  | nil => exact absurd hi.chain (hi.wait hw)
  | cons a rest =>
    obtain ⟨hfirst, T, hT, _, _⟩ := hi.chain
    obtain ⟨s1, _, _, _, hres⟩ := cronometerWake_eq hi hw
    exact ⟨a, T, hfirst, hT, _, hres⟩

theorem C19_head_present_at_wake_witness :
    ∃ r, run TimerInit armedOps = some r ∧ r.1.sigwait = true ∧
      ∃ a T, r.1.first = some a ∧ r.1.heap a = some T ∧
        ∃ r2, cronometerWake r.1 = some r2 :=
  ⟨_, rfl, rfl, C19_head_present_at_wake armedOps _ rfl rfl⟩

/-- C20 (defect of the code): after two `TimerAdd` calls in the order of the
deadlines the queue is 0, 1 and the `next` of the first record points to the
second one, but the `prev` of the second record is `NULL`. -/
theorem C20_prev_not_linked :
    (run TimerInit ascendingAdds).map
      (fun r => (r.1.queue, (r.1.heap 0).bind Timer.next, (r.1.heap 1).bind Timer.prev)) =
        some (some [0, 1], some 1, none) := by
  decide

/-- C14 (the claim fails): a timer due at 110 s is queued; `TimerAdd` of a timer
due at 105 s puts the new timer (address 1) before the old head (address 0)
and does not signal the condition variable. -/
theorem C14_counterexample :
    (run TimerInit [Op.add 10 0 (some 1) none ⟨100, 0⟩ true]).bind
      (fun r => (TimerAdd r.1 5 0 (some 1) none ⟨100, 0⟩ true).map
        (fun ra => (r.1.first, ra.state.first, ra.state.queue, ra.signalled))) =
      some (some 0, some 1, some [1, 0], false) := by
  decide

/-- C14 (as amended): in every reachable state a successful `TimerAdd` signals
the condition variable exactly when the queue was empty before the call. -/
theorem C14_signal_iff_queue_empty (ops : List Op) (r : State × List Event)
    (h : run TimerInit ops = some r) (sec usec : Int) (hd : Nat) (handleArg : Option Nat)
    (now : Timeval) (hv : ¬ (sec < 0 ∨ usec < 0 ∨ (sec = 0 ∧ usec = 0))) :
    ∃ ra l, TimerAdd r.1 sec usec (some hd) handleArg now true = some ra ∧
      r.1.queue = some l ∧ (ra.signalled = true ↔ l = []) := by
  obtain ⟨l, hi⟩ := Inv.run_ok ops Inv.init h
  obtain ⟨ra, l1, hres, _⟩ := hi.add hd handleArg now hv
  refine ⟨ra, l, hres, hi.queue_eq, ?_⟩
  cases l with
  | nil =>
    have hf : r.1.first = none := hi.chain
    have : TimerAdd r.1 sec usec (some hd) handleArg now true = _ :=
      TimerAdd_empty handleArg now hv hf
    rw [hres] at this
    rw [Option.some.inj this]
    simp
  | cons f l0 =>
    have hf : r.1.first = some f := hi.chain.1
    rw [TimerAdd_quiet hres hf]
    simp

theorem C14_signal_iff_queue_empty_witness :
    ∃ r, run TimerInit sampleOps = some r ∧
      ∃ ra l, TimerAdd r.1 3 0 (some 1) none ⟨103, 0⟩ true = some ra ∧
        r.1.queue = some l ∧ (ra.signalled = true ↔ l = []) :=
  ⟨_, rfl, C14_signal_iff_queue_empty sampleOps _ rfl 3 0 1 none ⟨103, 0⟩ (by decide)⟩

/-! ## Repeated calls of TimerRemove -/

/-- `TimerRemove` with an id that no entry of the queue carries returns with
the state unchanged and calls nothing. -/
theorem TimerRemove_absent {s : State} {l : List Nat} (hi : Inv s l) (id : Int)
    (f : Option Nat)
    (hfind : l.find? (fun b => decide ((s.heap b).map Timer.timerId = some id)) = none) :
    TimerRemove s id f = some (s, []) := by
  have hscan := removeScan_chain id hi.chain hi.length_lt
  unfold TimerRemove
  rw [hscan]
  simp only [Option.bind_eq_bind, Option.some_bind, hfind]

/-- Popping the head of the queue leaves the argument of every other record as
it is. -/
theorem Inv.dequeue_head_arg {s : State} {a : Nat} {rest : List Nat}
    (hi : Inv s (a :: rest)) {s1 : State} (hd : TimerDequeue s s.first = some s1) :
    ∀ x T1, s1.heap x = some T1 → ∃ T, s.heap x = some T ∧ T1.handler_arg = T.handler_arg := by
  obtain ⟨hfirst, T, hT, hprev, hrest⟩ := hi.chain
  have hprev : T.prev = none := by rcases hprev with e | e <;> exact e
  rw [hfirst] at hd
  cases rest with
  | nil =>
    have hnext : T.next = none := hrest
    rw [TimerDequeue_single hT hprev hnext] at hd
    have e := Option.some.inj hd
    subst e
    intro x T1 hx
    have hx : s.heap.free a x = some T1 := hx
    simp only [Heap.free] at hx; split at hx
    · exact Option.noConfusion hx
    · exact ⟨T1, hx, rfl⟩
  | cons n rest1 =>
    obtain ⟨hnext, N, hN, -, -⟩ := hrest
    rw [TimerDequeue_head hT hprev hnext hN] at hd
    have e := Option.some.inj hd
    subst e
    intro x T1 hx
    have hx : ((s.heap.store n { N with prev := none }).free a) x = some T1 := hx
    have hheap : ((s.heap.store n { N with prev := none }).free a) x =
        if x = a then none else if x = n then some { N with prev := none } else s.heap x := by
      simp [Heap.free, Heap.store]
    rw [hheap] at hx
    split at hx
    · exact Option.noConfusion hx
    · split at hx
      · rename_i _ hxn
        cases hx; subst hxn
        exact ⟨N, hN, rfl⟩
      · exact ⟨T1, hx, rfl⟩

/-- One step leaves the argument of a record that exists before the step as
it is, or clears it. -/
theorem Inv.step_arg {s : State} {l : List Nat} (hi : Inv s l) {op : Op}
    {r : State × List Event} (h : step s op = some r) :
    ∀ x T1, x < s.brk → r.1.heap x = some T1 →
      ∃ T, s.heap x = some T ∧ (T1.handler_arg = T.handler_arg ∨ T1.handler_arg = none) := by
  cases op with
  | add sec usec handle handleArg now mallocOk =>
    by_cases hf : invalidArgs sec usec handle ∨ mallocOk = false
    · have hres := TimerAdd_fail s sec usec handle handleArg now mallocOk hf
      simp only [step, hres, Option.some.injEq] at h
      subst h
      exact fun x T1 _ hx => ⟨T1, hx, Or.inl rfl⟩
    · have hv : ¬ (sec < 0 ∨ usec < 0 ∨ (sec = 0 ∧ usec = 0)) :=
        fun hc => hf (Or.inl (Or.inr hc))
      have hok : mallocOk = true := by
        cases mallocOk with
        | true => rfl
        | false => exact absurd (Or.inr rfl) hf
      obtain ⟨hd, hhd⟩ : ∃ hd, handle = some hd := by
        cases handle with
        | none => exact absurd (Or.inl (Or.inl rfl)) hf
        | some hd => exact ⟨hd, rfl⟩
      subst hhd; subst hok
      obtain ⟨ra, l1, hres, hok⟩ := hi.add hd handleArg now hv
      simp only [step, hres, Option.some.injEq] at h
      subst h
      intro x T1 hx hT1
      obtain ⟨Y, hY, _, _, _, _, _, d6⟩ := hok.old x (Nat.ne_of_lt hx) T1 hT1
      exact ⟨Y, hY, Or.inl d6⟩
  | remove timerId free_arg =>
    have h : TimerRemove s timerId free_arg = some r := h
    cases hfind : l.find? (fun b => decide ((s.heap b).map Timer.timerId = some timerId)) with
    | none =>
      rw [TimerRemove_absent hi timerId free_arg hfind] at h
      have e := Option.some.inj h
      subst e
      exact fun x T1 _ hx => ⟨T1, hx, Or.inl rfl⟩
    | some b =>
      obtain ⟨T, hT⟩ := hi.chain.mem_some b (List.mem_of_find?_eq_some hfind)
      rw [TimerRemove_found hi timerId free_arg hfind hT] at h
      have e := Option.some.inj h
      subst e
      intro x T1 _ hx
      have hx : s.heap.store b (cancelledRecord free_arg T) x = some T1 := hx
      by_cases hxb : x = b
      · subst hxb
        rw [Heap.store_same] at hx
        have e := Option.some.inj hx
        subst e
        refine ⟨T, hT, ?_⟩
        cases free_arg with
        | none => exact Or.inl rfl
        | some g => exact Or.inr rfl
      · rw [Heap.store_other _ _ hxb] at hx
        exact ⟨T1, hx, Or.inl rfl⟩
  | arm now =>
    by_cases hw : s.sigwait = true
    · simp [step, cronometerArm, hw] at h
    · have hw : s.sigwait = false := by simpa using hw
      cases l with
      | nil =>
        have hf : s.first = none := hi.chain
        simp [step, cronometerArm, hw, hf] at h
      | cons a rest =>
        obtain ⟨hfirst, T, hT, _, _⟩ := hi.chain
        have hres := cronometerArm_eq hi now hw hfirst hT
        simp only [step, hres, Option.some.injEq] at h
        subst h
        exact fun x T1 _ hx => ⟨T1, hx, Or.inl rfl⟩
  | wake =>
    by_cases hw : s.sigwait = true
    · cases l with
      | nil =>
        have hf : s.first = none := hi.chain
        exact absurd hf (hi.wait hw)
      | cons a rest =>
        obtain ⟨s1, T, hT, hd, hres⟩ := cronometerWake_eq hi hw
        simp only [step, hres, Option.some.injEq] at h
        subst h
        intro x T1 _ hx
        obtain ⟨Y, hY, e⟩ := hi.dequeue_head_arg hd x T1 hx
        exact ⟨Y, hY, Or.inl e⟩
    · have hw : s.sigwait = false := by simpa using hw
      simp [step, cronometerWake, hw] at h

/-- A record that carries the id, is marked cancelled and (for `clr`) has its
argument cleared stays so, as long as it exists, through every execution. -/
theorem Marked.run_kept (a : Nat) (timerId : Int) (clr : Bool) :
    ∀ (ops : List Op) {s : State} {l : List Nat} {r : State × List Event},
      Inv s l → a < s.brk → Marked s a timerId clr → run s ops = some r →
      Marked r.1 a timerId clr
  | [], s, l, r, _, _, hm, h => by
    have e : r = (s, []) := (Option.some.inj h).symm
    subst e
    exact hm
  | op :: ops, s, l, r, hi, ha, hm, h => by
    obtain ⟨r1, r2, hs, hr, e⟩ := run_cons_some h
    subst e
    obtain ⟨l1, hok⟩ := hi.step_ok hs
    have hm1 : Marked r1.1 a timerId clr := by
      intro T1 hT1
      obtain ⟨T, hT, _, hid, _, hcc⟩ := hok.kept a T1 ha hT1
      obtain ⟨T', hT', harg⟩ := hi.step_arg hs a T1 ha hT1
      have e : T' = T := by
        rw [hT] at hT'
        exact (Option.some.inj hT').symm
      subst e
      obtain ⟨m1, m2, m3⟩ := hm T' hT
      refine ⟨hid.trans m1, ?_, ?_⟩
      · rcases hcc with e | e
        · rw [e]; exact m2
        · exact e
      · intro hc
        rcases harg with e | e
        · rw [e]; exact m3 hc
        · exact e
    have := Marked.run_kept a timerId clr ops hok.inv (Nat.lt_of_lt_of_le ha hok.brk) hm1 hr
    exact this

/-- As long as at most 2^32 records have been created, the id of the record
created at address `a` names no other record: the first queue entry carrying
this id, if there is one, is `a`. -/
theorem none_or_same_of_few_adds (ops : List Op) (r : State × List Event)
    (h : run TimerInit ops = some r) (hfew : r.1.brk ≤ 4294967296) (l : List Nat)
    (hq : r.1.queue = some l) (a : Nat) (ha : a < r.1.brk) :
    l.find? (fun b => decide (r.1.idOf b = some (toInt32 a))) = none ∨
      l.find? (fun b => decide (r.1.idOf b = some (toInt32 a))) = some a := by
  obtain ⟨l1, hi⟩ := Inv.run_ok ops Inv.init h
  have el : l1 = l := by
    have := hi.queue_eq
    rw [hq] at this
    exact (Option.some.inj this).symm
  subst el
  have hidinv : IdInv r.1 :=
    Inv.idInv_run ops Inv.init ⟨rfl, fun x T hT => by simp [TimerInit] at hT⟩ h
  cases hf : l1.find? (fun b => decide (r.1.idOf b = some (toInt32 a))) with
  | none => exact Or.inl rfl
  | some b =>
    right
    have hb : b ∈ l1 := List.mem_of_find?_eq_some hf
    have hpb : r.1.idOf b = some (toInt32 a) := by
      have := List.find?_some hf
      simpa using this
    obtain ⟨B, hB⟩ := hi.chain.mem_some b hb
    have h2 : B.timerId = toInt32 a := by simpa [State.idOf, hB] using hpb
    have h3 : toInt32 b = toInt32 a := by
      rw [← hidinv.2 b B hB, h2]
    have hltb := hi.mem_lt b hb
    rw [toInt32_inj (by omega) (by omega) h3]

/-- C13 (the claim fails): a timer with the argument 9 is added and the
dispatcher arms the wake-up for it, which marks it as in use (line 177);
`TimerRemove` with its id 0 and the cleanup function 7 calls the cleanup
function on the argument 9; a second `TimerRemove` with the same id and the
same cleanup function, right after the first or after another `TimerAdd`, calls
the cleanup function again, on a `NULL` argument. -/
theorem C13_counterexample :
    armedIn TimerInit 0 armedHeadOps = true ∧
    (run TimerInit (armedHeadOps ++ [Op.remove 0 (some 7)])).map
      (fun r => (r.2, r.1.queue)) =
      some ([Event.signal, Event.added 0 (some 0), Event.armed ⟨10, 0⟩,
        Event.cleanup 7 (some 9)], some [0]) ∧
    (run TimerInit (armedHeadOps ++ [Op.remove 0 (some 7)])).bind
      (fun r => (TimerRemove r.1 0 (some 7)).map Prod.snd) =
      some [Event.cleanup 7 none] ∧
    (run TimerInit (armedHeadOps ++ [Op.remove 0 (some 7)] ++ laterAdd)).bind
      (fun r => (TimerRemove r.1 0 (some 7)).map Prod.snd) =
      some [Event.cleanup 7 none] := by
  decide

/-- C13 (as amended): `TimerRemove` is called with the id `timerId` and finds
the timer `a`, which the dispatcher has armed (line 177); any steps follow, and
then `timerId` names no queue entry or again `a` first. A `TimerRemove` with
this id and no cleanup function then returns with the state unchanged and calls
nothing. If the first call had a cleanup function, a call with a cleanup
function returns with the state unchanged too; it calls its cleanup function on
a `NULL` argument if `a` is still in the queue, and calls nothing if not. In
general a later call with a cleanup function calls it on the argument the
record of `a` still holds and clears that argument, when `a` is still in the
queue, and does nothing when not; right after a first call without cleanup
function it does what a first call with this cleanup function does. -/
theorem C13_repeated_remove_armed (ops1 : List Op) (r1 : State × List Event)
    (h1 : run TimerInit ops1 = some r1) (timerId : Int) (f1 : Option Nat)
    (l : List Nat) (a : Nat) (_harmed : armedIn TimerInit a ops1 = true)
    (hq : r1.1.queue = some l)
    (hfind : l.find? (fun b => decide (r1.1.idOf b = some timerId)) = some a)
    (r2 : State × List Event) (h2 : TimerRemove r1.1 timerId f1 = some r2)
    (ops2 : List Op) (r3 : State × List Event) (h3 : run r2.1 ops2 = some r3)
    (l3 : List Nat) (hq3 : r3.1.queue = some l3)
    (hsame : l3.find? (fun b => decide (r3.1.idOf b = some timerId)) = none ∨
      l3.find? (fun b => decide (r3.1.idOf b = some timerId)) = some a) :
    TimerRemove r3.1 timerId none = some (r3.1, []) ∧
    (∀ g1 g2, f1 = some g1 →
      TimerRemove r3.1 timerId (some g2) =
        some (r3.1, if a ∈ l3 then [Event.cleanup g2 none] else [])) ∧
    (∀ g2, TimerRemove r3.1 timerId (some g2) =
      if a ∈ l3 then
        (r3.1.heap a).map (fun T =>
          ({ r3.1 with heap := r3.1.heap.store a { T with handler_arg := none } },
            [Event.cleanup g2 T.handler_arg]))
      else some (r3.1, [])) ∧
    (∀ g2, f1 = none →
      TimerRemove r2.1 timerId (some g2) = TimerRemove r1.1 timerId (some g2)) := by
  obtain ⟨l1, hi⟩ := Inv.run_ok ops1 Inv.init h1
  have el : l1 = l := by
    have := hi.queue_eq
    rw [hq] at this
    exact (Option.some.inj this).symm
  subst el
  have hfind : l1.find? (fun b => decide ((r1.1.heap b).map Timer.timerId = some timerId)) =
      some a := hfind
  have hal : a ∈ l1 := List.mem_of_find?_eq_some hfind
  obtain ⟨T, hT⟩ := hi.chain.mem_some a hal
  have hTid : T.timerId = timerId := by
    have := List.find?_some hfind
    simpa [hT] using this
  obtain ⟨s1, ev, hrem, hinv1, _, hbrk1, _⟩ := hi.remove timerId f1
  have hfirst := TimerRemove_found hi timerId f1 hfind hT
  rw [h2] at hfirst hrem
  have e2 : r2 = ({ r1.1 with heap := r1.1.heap.store a (cancelledRecord f1 T) },
      cleanupCalls f1 T) := Option.some.inj hfirst
  have e3 : r2 = (s1, ev) := Option.some.inj hrem
  have hinv2 : Inv r2.1 l1 := by rw [e3]; exact hinv1
  have hheap : r2.1.heap = r1.1.heap.store a (cancelledRecord f1 T) := by rw [e2]
  have hT2 : r2.1.heap a = some (cancelledRecord f1 T) := by
    rw [hheap, Heap.store_same]
  have hfind2 : l1.find? (fun b => decide ((r2.1.heap b).map Timer.timerId = some timerId)) =
      some a := by
    rw [← hfind]
    refine find?_agree l1 ?_
    intro b _
    by_cases hb : b = a
    · subst hb
      rw [hT2, hT]
      cases f1 <;> rfl
    · rw [hheap, Heap.store_other _ _ hb]
  -- the record of `a` stays marked through the steps that follow
  have hm2 : Marked r2.1 a timerId f1.isSome := by
    intro X hX
    rw [hT2] at hX
    have e := Option.some.inj hX
    subst e
    cases f1 with
    | none => exact ⟨hTid, rfl, fun hc => by simp at hc⟩
    | some g => exact ⟨hTid, rfl, fun _ => rfl⟩
  have ha2 : a < r2.1.brk := hinv2.mem_lt a hal
  have hm3 := Marked.run_kept a timerId f1.isSome ops2 hinv2 ha2 hm2 h3
  obtain ⟨l3', hi3⟩ := Inv.run_ok ops2 hinv2 h3
  have el3 : l3' = l3 := by
    have := hi3.queue_eq
    rw [hq3] at this
    exact (Option.some.inj this).symm
  subst el3
  have hsame : l3'.find? (fun b => decide ((r3.1.heap b).map Timer.timerId = some timerId)) =
        none ∨
      l3'.find? (fun b => decide ((r3.1.heap b).map Timer.timerId = some timerId)) =
        some a := hsame
  have hlast : ∀ g2, f1 = none →
      TimerRemove r2.1 timerId (some g2) = TimerRemove r1.1 timerId (some g2) := by
    intro g2 hf1
    subst hf1
    rw [TimerRemove_found hinv2 timerId (some g2) hfind2 hT2,
      TimerRemove_found hi timerId (some g2) hfind hT, hheap, Heap.store_twice, e2]
    rfl
  rcases hsame with hnone | hsome
  · -- the timer has left the queue
    have hna : a ∉ l3' := by
      intro ha3
      obtain ⟨T3, hT3⟩ := hi3.chain.mem_some a ha3
      have hp := List.find?_eq_none.mp hnone a ha3
      rw [hT3] at hp
      simp [(hm3 T3 hT3).1] at hp
    refine ⟨TimerRemove_absent hi3 timerId none hnone, ?_, ?_, hlast⟩
    · intro g1 g2 _
      rw [TimerRemove_absent hi3 timerId (some g2) hnone, if_neg hna]
    · intro g2
      rw [TimerRemove_absent hi3 timerId (some g2) hnone, if_neg hna]
  · -- the timer is still the first queue entry with this id
    have ha3 : a ∈ l3' := List.mem_of_find?_eq_some hsome
    obtain ⟨T3, hT3⟩ := hi3.chain.mem_some a ha3
    obtain ⟨_, hc3, harg3⟩ := hm3 T3 hT3
    have hrec0 : cancelledRecord none T3 = T3 := by
      cases T3
      simp only [cancelledRecord] at hc3 ⊢
      simp_all
    have hrec1 : ∀ g2, cancelledRecord (some g2) T3 = { T3 with handler_arg := none } := by
      intro g2
      cases T3
      simp only [cancelledRecord] at hc3 ⊢
      simp_all
    refine ⟨?_, ?_, ?_, hlast⟩
    · rw [TimerRemove_found hi3 timerId none hsome hT3, hrec0, Heap.store_self _ hT3]
      rfl
    · intro g1 g2 hf1
      subst hf1
      have hnoarg : T3.handler_arg = none := harg3 rfl
      have hrec2 : ({ T3 with handler_arg := none } : Timer) = T3 := by
        cases T3
        simp only at hnoarg ⊢
        simp_all
      rw [TimerRemove_found hi3 timerId (some g2) hsome hT3, hrec1, hrec2,
        Heap.store_self _ hT3, if_pos ha3]
      simp only [cleanupCalls, hnoarg]
    · intro g2
      rw [TimerRemove_found hi3 timerId (some g2) hsome hT3, hrec1, if_pos ha3, hT3]
      rfl

theorem C13_repeated_remove_armed_witness :
    ∃ r1, run TimerInit armedHeadOps = some r1 ∧ armedIn TimerInit 0 armedHeadOps = true ∧
      r1.1.queue = some [0] ∧
      List.find? (fun b => decide (r1.1.idOf b = some 0)) [0] = some 0 ∧
      ∃ r2, TimerRemove r1.1 0 (some 7) = some r2 ∧
      ∃ r3, run r2.1 laterAdd = some r3 ∧ r3.1.queue = some [1, 0] ∧
        (List.find? (fun b => decide (r3.1.idOf b = some 0)) [1, 0] = none ∨
          List.find? (fun b => decide (r3.1.idOf b = some 0)) [1, 0] = some 0) ∧
        (TimerRemove r3.1 0 none = some (r3.1, []) ∧
        (∀ g1 g2, some 7 = some g1 →
          TimerRemove r3.1 0 (some g2) =
            some (r3.1, if 0 ∈ [1, 0] then [Event.cleanup g2 none] else [])) ∧
        (∀ g2, TimerRemove r3.1 0 (some g2) =
          if 0 ∈ [1, 0] then
            (r3.1.heap 0).map (fun T =>
              ({ r3.1 with heap := r3.1.heap.store 0 { T with handler_arg := none } },
                [Event.cleanup g2 T.handler_arg]))
          else some (r3.1, [])) ∧
        (∀ g2, some 7 = none →
          TimerRemove r2.1 0 (some g2) = TimerRemove r1.1 0 (some g2))) :=
  ⟨_, rfl, by decide, by decide, by decide, _, rfl, _, rfl, by decide, Or.inr (by decide),
    C13_repeated_remove_armed armedHeadOps _ rfl 0 (some 7) [0] 0 (by decide) (by decide)
      (by decide) _ rfl laterAdd _ rfl [1, 0] (by decide) (Or.inr (by decide))⟩

/-- C3 (defect of the code): timers with the delays 10 s, 20 s and 10 s are
added at clock value 100 s, so the first and the third timer (addresses 0
and 2) have the same deadline 110 s. The third `TimerAdd` does not place the
new timer behind the first one: it makes the new timer the head and drops the
first timer from the queue, which is then 2, 1. The dispatcher calls the
handlers of the timers 2 and 1 and never the handler of timer 0, the one
added first. -/
theorem C3_tied_timer_dropped :
    (run TimerInit tiedAdds).map
        (fun r => (idsOf r.2, r.1.deadline 0, r.1.deadline 2, r.1.queue)) =
      some ([0, 1, 2], some ⟨110, 0⟩, some ⟨110, 0⟩, some [2, 1]) ∧
    (run TimerInit (tiedAdds ++
        [Op.arm ⟨110, 0⟩, Op.wake, Op.arm ⟨120, 0⟩, Op.wake])).map
        (fun r => (invoked r.2, r.1.queue)) = some ([2, 1], some []) := by
  decide

end TimerLib
